import Mathlib

/-!
Verification of the paper-correction pipeline (extractor.py, htr.py,
htr_pipeline.py).  Text is modelled as `List Char`; Python's `json` module is
modelled by the executable parser `jsonLoads` below (standard JSON: the
non-standard `Infinity`/`NaN` extensions and surrogate-pair combination are
outside the model); machine floats do not occur (JSON numbers are kept as
their literal tokens).
-/

/-- Characters stripped by Python's `str.strip()` (ASCII whitespace). -/
def isPySpace (c : Char) : Bool :=
  c = ' ' || c = '\t' || c = '\n' || c = '\r' || c = '\x0b' || c = '\x0c'

/-- Whitespace accepted between tokens by Python's `json` module. -/
def isJsonWs (c : Char) : Bool :=
  c = ' ' || c = '\t' || c = '\n' || c = '\r'

/-- Python `str.strip()`. -/
def pyStrip (s : List Char) : List Char :=
  (s.dropWhile isPySpace).rdropWhile isPySpace

/-- Strip JSON whitespace from both ends (the neutral surroundings that
`json.loads` ignores). -/
def stripJsonWs (s : List Char) : List Char :=
  (s.dropWhile isJsonWs).rdropWhile isJsonWs

/-- Worker for `removeAll`; the fuel is the length of the remaining input
(each step consumes at least one character when the pattern is nonempty). -/
def removeAllGo (pat : List Char) : Nat → List Char → List Char
  | _, [] => []
  | 0, s => s
  | fuel + 1, c :: rest =>
    if (c :: rest).take pat.length = pat then
      removeAllGo pat fuel ((c :: rest).drop pat.length)
    else
      c :: removeAllGo pat fuel rest

/-- Python `str.replace(pat, "")` for a nonempty pattern: delete every
occurrence of `pat`, scanning left to right. -/
def removeAll (pat s : List Char) : List Char :=
  removeAllGo pat s.length s

/-- The first-tier JSON repair used by both `htr.extract_all_pages` and
`htr_pipeline._parse_json`:
`raw.replace("```json", "").replace("```", "").strip()`. -/
def cleanFence (raw : List Char) : List Char :=
  pyStrip (removeAll ("```").data (removeAll ("```json").data raw))

/-- The match of `re.search(r'\x7b[\s\S]*\x7d', raw)`: the regex is greedy, so
the match (when it exists) runs from the first `\x7b` of `raw` to the last
`\x7d` after it. -/
def extractBraceBlock (s : List Char) : Option (List Char) :=
  let core := ((s.dropWhile (fun c => !(c = '\x7b'))).rdropWhile
    (fun c => !(c = '\x7d')))
  if 2 ≤ core.length then some core else none

/-- Number of positions of `s` at which the pattern `p` occurs. -/
def countOccur (p : List Char) : List Char → Nat
  | [] => 0
  | c :: rest => (if p <+: c :: rest then 1 else 0) + countOccur p rest

/-! ### extractor.py -/

/-- The marker written by `extract_text_from_pdf` before page `k`
(`f"--- Page {i + 1} ---"`). -/
def pageMarker (k : Nat) : List Char :=
  ("--- Page ").data ++ (toString k).data ++ (" ---").data

/-- The page loop of `extract_text_from_pdf`: accumulate
`f"--- Page {i + 1} ---\n{text}\n\n"` over the pages, numbering from
`start`. -/
def renderPages : List (List Char) → Nat → List Char
  | [], _ => []
  | t :: rest, start =>
    pageMarker start ++ '\n' :: (t ++ '\n' :: '\n' :: renderPages rest (start + 1))

/-- `extractor.extract_text_from_pdf`, as a function of the per-page OCR
texts: the returned string (the file written to `output_txt_path` has exactly
this content). -/
def extract_text_from_pdf (pages : List (List Char)) : List Char :=
  renderPages pages 1

/-! ### The JSON value model and the `json.loads` parser -/

/-- Parsed JSON values.  Numbers are kept as their source tokens (Python
turns them into `int`/`float`; no claim depends on numeric normalisation). -/
inductive Json where
  | null : Json
  | bool (b : Bool) : Json
  | num (tok : List Char) : Json
  | str (s : List Char) : Json
  | arr (elems : List Json) : Json
  | obj (members : List (List Char × Json)) : Json

/-- Insert a key/value pair as Python `dict` construction does: overwrite in
place if the key is present, else append. -/
def objInsert (k : List Char) (v : Json) : List (List Char × Json) → List (List Char × Json)
  | [] => [(k, v)]
  | (k', v') :: rest =>
    if k' = k then (k', v) :: rest else (k', v') :: objInsert k v rest

def skipWs (s : List Char) : List Char :=
  s.dropWhile isJsonWs

/-- Decode one hex digit. -/
def hexVal (c : Char) : Option Nat :=
  if '0' ≤ c ∧ c ≤ '9' then some (c.toNat - '0'.toNat)
  else if 'a' ≤ c ∧ c ≤ 'f' then some (c.toNat - 'a'.toNat + 10)
  else if 'A' ≤ c ∧ c ≤ 'F' then some (c.toNat - 'A'.toNat + 10)
  else none

/-- Body of a JSON string after the opening quote (strict mode: raw control
characters are rejected, the standard escapes are decoded). -/
def parseStrBody : List Char → Option (List Char × List Char)
  | [] => none
  | '"' :: rest => some ([], rest)
  | '\\' :: rest =>
    match rest with
    | '"' :: r => (parseStrBody r).map fun p => ('"' :: p.1, p.2)
    | '\\' :: r => (parseStrBody r).map fun p => ('\\' :: p.1, p.2)
    | '/' :: r => (parseStrBody r).map fun p => ('/' :: p.1, p.2)
    | 'b' :: r => (parseStrBody r).map fun p => ('\x08' :: p.1, p.2)
    | 'f' :: r => (parseStrBody r).map fun p => ('\x0c' :: p.1, p.2)
    | 'n' :: r => (parseStrBody r).map fun p => ('\n' :: p.1, p.2)
    | 'r' :: r => (parseStrBody r).map fun p => ('\r' :: p.1, p.2)
    | 't' :: r => (parseStrBody r).map fun p => ('\t' :: p.1, p.2)
    | 'u' :: h1 :: h2 :: h3 :: h4 :: r =>
      match hexVal h1, hexVal h2, hexVal h3, hexVal h4 with
      | some a, some b, some c, some d =>
        (parseStrBody r).map fun p =>
          (Char.ofNat (((a * 16 + b) * 16 + c) * 16 + d) :: p.1, p.2)
      | _, _, _, _ => none
    | _ => none
  | c :: rest =>
    if c.toNat < 32 then none
    else (parseStrBody rest).map fun p => (c :: p.1, p.2)

/-- Fractional part of a JSON number (`(\.\d+)?`); like the regex, an
unproductive dot is left unconsumed. -/
def parseFracPart (s : List Char) : List Char × List Char :=
  match s with
  | '.' :: r =>
    match r.span Char.isDigit with
    | ([], _) => ([], s)
    | (ds, r') => ('.' :: ds, r')
  | _ => ([], s)

/-- Exponent part of a JSON number (`([eE][-+]?\d+)?`); an unproductive
exponent marker is left unconsumed. -/
def parseExpPart (s : List Char) : List Char × List Char :=
  match s with
  | c :: r =>
    if c = 'e' ∨ c = 'E' then
      match r with
      | sc :: r2 =>
        if sc = '+' ∨ sc = '-' then
          match r2.span Char.isDigit with
          | ([], _) => ([], s)
          | (ds, r') => (c :: sc :: ds, r')
        else
          match r.span Char.isDigit with
          | ([], _) => ([], s)
          | (ds, r') => (c :: ds, r')
      | [] => ([], s)
    else ([], s)
  | [] => ([], s)

/-- A JSON number token (`-?(0|[1-9]\d*)(\.\d+)?([eE][-+]?\d+)?`). -/
def parseNumTok (s : List Char) : Option (List Char × List Char) :=
  let sgn : List Char × List Char :=
    match s with
    | '-' :: r => (['-'], r)
    | _ => ([], s)
  match sgn.2 with
  | '0' :: r =>
    let f := parseFracPart r
    let e := parseExpPart f.2
    some (sgn.1 ++ '0' :: (f.1 ++ e.1), e.2)
  | c :: r =>
    if c.isDigit then
      let ds := r.span Char.isDigit
      let f := parseFracPart ds.2
      let e := parseExpPart f.2
      some (sgn.1 ++ c :: (ds.1 ++ f.1 ++ e.1), e.2)
    else none
  | [] => none

mutual

/-- One JSON value, fuelled recursive-descent parser for Python's
`json.loads` grammar. -/
def parseVal : Nat → List Char → Option (Json × List Char)
  | 0, _ => none
  | fuel + 1, s =>
    match skipWs s with
    | 'n' :: 'u' :: 'l' :: 'l' :: rest => some (Json.null, rest)
    | 't' :: 'r' :: 'u' :: 'e' :: rest => some (Json.bool true, rest)
    | 'f' :: 'a' :: 'l' :: 's' :: 'e' :: rest => some (Json.bool false, rest)
    | '"' :: rest => (parseStrBody rest).map fun p => (Json.str p.1, p.2)
    | '[' :: rest => parseArrStart fuel rest
    | '\x7b' :: rest => parseObjStart fuel rest
    | c :: rest =>
      if c = '-' ∨ c.isDigit then
        (parseNumTok (c :: rest)).map fun p => (Json.num p.1, p.2)
      else none
    | [] => none

/-- Array continuation right after `[`. -/
def parseArrStart : Nat → List Char → Option (Json × List Char)
  | 0, _ => none
  | fuel + 1, s =>
    match skipWs s with
    | ']' :: rest => some (Json.arr [], rest)
    | _ => parseArrRest fuel [] s

/-- Array elements: value, then `,` and more or `]`. -/
def parseArrRest : Nat → List Json → List Char → Option (Json × List Char)
  | 0, _, _ => none
  | fuel + 1, acc, s =>
    match parseVal fuel s with
    | none => none
    | some (v, rest) =>
      match skipWs rest with
      | ',' :: rest2 => parseArrRest fuel (acc ++ [v]) rest2
      | ']' :: rest2 => some (Json.arr (acc ++ [v]), rest2)
      | _ => none

/-- Object continuation right after an opening brace. -/
def parseObjStart : Nat → List Char → Option (Json × List Char)
  | 0, _ => none
  | fuel + 1, s =>
    match skipWs s with
    | '\x7d' :: rest => some (Json.obj [], rest)
    | _ => parseObjRest fuel [] s

/-- Object members: string key, `:`, value, then `,` and more or a closing
brace. -/
def parseObjRest : Nat → List (List Char × Json) → List Char → Option (Json × List Char)
  | 0, _, _ => none
  | fuel + 1, acc, s =>
    match skipWs s with
    | '"' :: rest =>
      match parseStrBody rest with
      | none => none
      | some (k, rest2) =>
        match skipWs rest2 with
        | ':' :: rest3 =>
          match parseVal fuel rest3 with
          | none => none
          | some (v, rest4) =>
            match skipWs rest4 with
            | ',' :: rest5 => parseObjRest fuel (objInsert k v acc) rest5
            | '\x7d' :: rest5 => some (Json.obj (objInsert k v acc), rest5)
            | _ => none
        | _ => none
    | _ => none

end

/-- `json.loads` on an input already stripped of surrounding whitespace:
parse one value and require only whitespace after it ("Extra data"
otherwise). -/
def jsonLoadsCore (s : List Char) : Option Json :=
  match parseVal (8 * s.length + 16) s with
  | some (v, rest) => if skipWs rest = [] then some v else none
  | none => none

/-- Python `json.loads` (it ignores JSON whitespace around the document). -/
def jsonLoads (s : List Char) : Option Json :=
  jsonLoadsCore (stripJsonWs s)

/-! ### htr.py — response handling of `extract_all_pages` -/

/-- The degraded result synthesized by `extract_all_pages` when both JSON
parse attempts fail (`raw` is the stripped response text). -/
def degradedResult (raw : List Char) : Json :=
  .obj [(("answers").data, .arr [.obj [
          (("question_number").data, .str ("?").data),
          (("answer_text").data, .str raw),
          (("answer_type").data, .str ("raw").data)]]),
        (("total_questions_found").data, .num ("0").data),
        (("pages_processed").data, .str ("unknown").data),
        (("extraction_notes").data,
          .str ("JSON parse failed — raw text included").data)]

/-- Lines 85–101 of `htr.py` (`extract_all_pages` after the model call):
`raw` is `response.text.strip()`; try the fence-stripped parse, then the
brace-block parse (its `JSONDecodeError` is swallowed by `pass`), else
return the degraded result. -/
def extract_all_pages_handle (raw : List Char) : Json :=
  match jsonLoads (cleanFence raw) with
  | some v => v
  | none =>
    match extractBraceBlock raw with
    | some block =>
      match jsonLoads block with
      | some v => v
      | none => degradedResult raw
    | none => degradedResult raw

/-! ### htr_pipeline.py — `_parse_json` -/

/-- Errors escaping `_parse_json`: the explicit `ValueError` (with its
message) raised when no brace block exists, or the `json.JSONDecodeError`
propagating from `json.loads` on the extracted block (its message does not
carry the raw response; decoder messages are not modelled further). -/
inductive PErr where
  | valueErr (msg : List Char) : PErr
  | decodeErr : PErr

/-- `htr_pipeline._parse_json`: fence-stripped parse, then greedy brace-block
parse; if no block matches, raise `ValueError` with the first 300 characters
of `raw`; if the block itself fails to parse, the decode error propagates. -/
def parse_json (raw : List Char) : Except PErr Json :=
  match jsonLoads (cleanFence raw) with
  | some v => .ok v
  | none =>
    match extractBraceBlock raw with
    | some block =>
      match jsonLoads block with
      | some v => .ok v
      | none => .error .decodeErr
    | none =>
      .error (.valueErr (("Could not parse response as JSON:\n").data ++ raw.take 300))

/-! ### Python value formatting (`str`, `repr`, truthiness, `:.1f`) -/

mutual

/-- Python `repr` of a parsed-JSON value (string quoting is modelled without
escape re-encoding, which no claim exercises). -/
def pyRepr : Json → List Char
  | .null => ("None").data
  | .bool true => ("True").data
  | .bool false => ("False").data
  | .num tok => tok
  | .str s => '\'' :: (s ++ ['\''])
  | .arr l => '[' :: (pyReprList l ++ [']'])
  | .obj m => '\x7b' :: (pyReprMembers m ++ ['\x7d'])

/-- Comma-separated `repr`s of list elements. -/
def pyReprList : List Json → List Char
  | [] => []
  | [x] => pyRepr x
  | x :: y :: xs => pyRepr x ++ ',' :: ' ' :: pyReprList (y :: xs)

/-- Comma-separated `'key': repr(value)` renderings of dict members. -/
def pyReprMembers : List (List Char × Json) → List Char
  | [] => []
  | [(k, v)] => '\'' :: (k ++ ('\'' :: ':' :: ' ' :: pyRepr v))
  | (k, v) :: kv :: ms =>
    ('\'' :: (k ++ ('\'' :: ':' :: ' ' :: pyRepr v))) ++ ',' :: ' ' :: pyReprMembers (kv :: ms)

end

/-- Python `str` of a parsed-JSON value (`str` of a string is the string
itself; numeric tokens are kept literally, so float re-normalisation such as
`1e2 → "100.0"` is outside the model). -/
def pyStr (j : Json) : List Char :=
  match j with
  | .str s => s
  | j => pyRepr j

/-- Python dict lookup in our association-list model. -/
def lookupKey : List (List Char × Json) → List Char → Option Json
  | [], _ => none
  | (k', v) :: rest, k => if k' = k then some v else lookupKey rest k

/-- `d.get(key, dflt)`: `none` models the `AttributeError` raised when the
receiver is not a dict. -/
def jGetD (j : Json) (k : List Char) (dflt : Json) : Option Json :=
  match j with
  | .obj m => some ((lookupKey m k).getD dflt)
  | _ => none

/-- `d[key]`: `none` models both `KeyError` and indexing a non-dict. -/
def jIndex (j : Json) (k : List Char) : Option Json :=
  match j with
  | .obj m => lookupKey m k
  | _ => none

/-- The digits of the mantissa part of a JSON number token. -/
def numMantissa (tok : List Char) : List Char :=
  tok.takeWhile fun c => !(c = 'e' || c = 'E')

/-- Whether a JSON number token denotes a nonzero value. -/
def numTokNonzero (tok : List Char) : Bool :=
  (numMantissa tok).any fun c => c.isDigit && !(c = '0')

/-- Whether a JSON number token denotes a value strictly greater than 0. -/
def numTokPos (tok : List Char) : Bool :=
  (match tok with
   | '-' :: _ => false
   | _ => true) && numTokNonzero tok

/-- Python truthiness of a parsed-JSON value. -/
def pyTruthy : Json → Bool
  | .null => false
  | .bool b => b
  | .num tok => numTokNonzero tok
  | .str s => !s.isEmpty
  | .arr l => !l.isEmpty
  | .obj m => !m.isEmpty

/-- Python `v > 0`; `none` models the `TypeError` on non-numeric values
(`bool` counts as an int). -/
def pyGtZero : Json → Option Bool
  | .num tok => some (numTokPos tok)
  | .bool b => some b
  | _ => none

/-- Decimal value of a digit string. -/
def digitsVal (ds : List Char) : Nat :=
  ds.foldl (fun a c => 10 * a + (c.toNat - '0'.toNat)) 0

/-- Signed value of the exponent part (input begins at `e`/`E` or is
empty). -/
def expVal : List Char → ℤ
  | [] => 0
  | _ :: rest =>
    match rest with
    | '-' :: ds => -(digitsVal ds : ℤ)
    | '+' :: ds => (digitsVal ds : ℤ)
    | ds => (digitsVal ds : ℤ)

/-- Exact rational value of a JSON number token. -/
def tokVal (tok : List Char) : ℚ :=
  let t1 := match tok with
    | '-' :: r => r
    | _ => tok
  let m := t1.takeWhile fun c => !(c = 'e' || c = 'E')
  let e := expVal (t1.dropWhile fun c => !(c = 'e' || c = 'E'))
  let ids := m.takeWhile Char.isDigit
  let fds := match m.dropWhile Char.isDigit with
    | '.' :: r => r
    | _ => []
  let mag : ℚ :=
    ((digitsVal ids * 10 ^ fds.length + digitsVal fds : ℕ) : ℚ) / ((10 ^ fds.length : ℕ) : ℚ)
      * (10 : ℚ) ^ (e : ℤ)
  match tok with
  | '-' :: _ => -mag
  | _ => mag

/-- Round to the nearest integer, ties to even (the rounding of `format`). -/
def roundHalfEven (x : ℚ) : ℤ :=
  let f := ⌊x⌋
  let r := x - (f : ℚ)
  if r < 1 / 2 then f
  else if 1 / 2 < r then f + 1
  else if f % 2 = 0 then f else f + 1

/-- Render a rational with one decimal digit, as Python `f"{x:.1f}"` does on
the exact value (double-representation effects are outside the model). -/
def fmt1 (q : ℚ) : List Char :=
  let n := roundHalfEven (q * 10)
  let a := n.natAbs
  (if n < 0 ∨ (n = 0 ∧ q < 0) then ['-'] else [])
    ++ (toString (a / 10)).data ++ '.' :: Nat.digitChar (a % 10) :: []

/-- Python `f"{v:.1f}"` on a parsed-JSON value; `none` models the error on
non-numeric values. -/
def format1f : Json → Option (List Char)
  | .num tok => some (fmt1 (tokVal tok))
  | .bool true => some (fmt1 1)
  | .bool false => some (fmt1 0)
  | _ => none

/-! ### htr_pipeline.py — `generate_report` -/

/-- Line 137 of `htr_pipeline.py`:
`"✓" if r.get("is_correct") else ("~" if r.get("marks_awarded", 0) > 0 else "✗")`
(the comparison is evaluated lazily, only in the falsy branch). -/
def statusGlyph (icv ma : Json) : Option (List Char) :=
  if pyTruthy icv then some (("✓").data)
  else (pyGtZero ma).map fun b => if b then ("~").data else ("✗").data

/-- The four report lines of one entry of `grading["results"]`
(lines 136–141 of `htr_pipeline.py`); `none` models the exceptions Python
would raise on ill-typed entries. -/
def recLines (r : Json) : Option (List (List Char)) := do
  let icv ← jGetD r ("is_correct").data .null
  let ma ← jGetD r ("marks_awarded").data (.num ("0").data)
  let st ← statusGlyph icv ma
  let qn ← jIndex r ("question_number").data
  let mav ← jGetD r ("marks_available").data (.num ("0").data)
  let sa ← jGetD r ("student_answer").data (.str [])
  let ca ← jGetD r ("correct_answer").data (.str [])
  let fb ← jGetD r ("feedback").data (.str [])
  some [("\n  Q").data ++ pyStr qn ++ (" [").data ++ st ++ ("] ").data
          ++ pyStr ma ++ ('/' :: pyStr mav) ++ (" marks").data,
        ("  Student : ").data ++ (pyStr sa).take 100,
        ("  Correct : ").data ++ (pyStr ca).take 100,
        ("  Feedback: ").data ++ pyStr fb]

/-- The `lines` list built by `generate_report` (before the `"\n".join`);
`none` models the exceptions Python would raise on ill-typed inputs (a
non-list `results` value is also modelled as a failure). -/
def reportLines (extracted _solutions grading : Json) : Option (List (List Char)) := do
  let src ← jGetD extracted ("source_pdf").data (.str ("N/A").data)
  let tqf ← jGetD extracted ("total_questions_found").data (.num ("0").data)
  let awarded ← jGetD grading ("total_marks_awarded").data (.num ("0").data)
  let available ← jGetD grading ("total_marks_available").data (.num ("0").data)
  let pct ← jGetD grading ("percentage").data (.num ("0").data)
  let pctTxt ← format1f pct
  let grade ← jGetD grading ("grade").data (.str ("N/A").data)
  let ofb ← jGetD grading ("overall_feedback").data (.str [])
  let resultsJ ← jGetD grading ("results").data (.arr [])
  let results ← match resultsJ with
    | .arr l => some l
    | _ => none
  let recs ← results.mapM recLines
  some ([List.replicate 60 '=',
         ("         PAPER CORRECTION REPORT").data,
         List.replicate 60 '=',
         ("\nSource: ").data ++ pyStr src,
         ("Questions extracted: ").data ++ pyStr tqf,
         ("\n── SCORE SUMMARY ").data ++ List.replicate 43 '─',
         ("  Total Marks : ").data ++ pyStr awarded ++ (" / ").data ++ pyStr available,
         ("  Percentage  : ").data ++ pctTxt ++ ['%'],
         ("  Grade       : ").data ++ pyStr grade,
         ("\n── OVERALL FEEDBACK ").data ++ List.replicate 40 '─',
         ("  ").data ++ pyStr ofb,
         ("\n── QUESTION-WISE RESULTS ").data ++ List.replicate 35 '─']
        ++ recs.flatten
        ++ ['\n' :: List.replicate 60 '='])

/-- `htr_pipeline.generate_report`: the report text (`"\n".join(lines)`);
the file written to `output_path` has exactly this content. -/
def generate_report (extracted solutions grading : Json) : Option (List Char) :=
  (reportLines extracted solutions grading).map (List.intercalate ['\n'])

/-! ### The pipeline (`run_pipeline` and the steps it drives)

The hosted Gemini model, the filesystem and the console are modelled by an
explicit environment: the model's response texts are environment inputs (the
prompts sent to it play no role in any claim), file writes are accumulated in
order, and the console lines printed by `run_pipeline` itself are recorded
(console output of the helper steps is elided; none of it is claimed about).
A `none` result models an uncaught Python exception aborting the run. -/

/-- Content of one written output file. -/
inductive FileData where
  | jsonData (j : Json) : FileData
  | textData (t : List Char) : FileData

/-- The outside world as `run_pipeline` sees it. -/
structure Env where
  apiKey : Option (List Char)
  fileExists : List Char → Bool
  fileContent : List Char → List Char
  transcriberResponse : List Char
  solutionsResponse : List Char
  graderResponse : List Char
  deleteFails : Bool

/-- `htr.get_client`: fail when the key is unset, empty (falsy) or still the
placeholder. -/
def get_client (env : Env) : Option Unit :=
  match env.apiKey with
  | none => none
  | some k =>
    if k = [] ∨ k = ("your_gemini_api_key_here").data then none else some ()

/-- Python `str.upper()` (ASCII). -/
def pyUpper (s : List Char) : List Char :=
  s.map Char.toUpper

/-- Python `len` on a parsed-JSON value; `none` models the `TypeError` on
unsized values. -/
def lenOf : Json → Option Nat
  | .arr l => some l.length
  | .str s => some s.length
  | .obj m => some m.length
  | _ => none

/-- `d[key] = v`; `none` models assignment to a non-dict. -/
def jSet (j : Json) (k : List Char) (v : Json) : Option Json :=
  match j with
  | .obj m => some (.obj (objInsert k v m))
  | _ => none

/-- One answer block of the text file written by `extract_handwritten_text`:
`f"Q{ans['question_number']}. [{ans.get('answer_type','written').upper()}]\n"`
followed by the answer text and a blank line. -/
def answerBlock (ans : Json) : Option (List Char) := do
  let qn ← jIndex ans ("question_number").data
  let at0 ← jGetD ans ("answer_type").data (.str ("written").data)
  let atU ← match at0 with
    | .str s => some (pyUpper s)
    | _ => none
  let atxt ← jIndex ans ("answer_text").data
  some (('Q' :: pyStr qn) ++ (". [").data ++ atU ++ ("]\n").data
        ++ pyStr atxt ++ ("\n\n").data)

/-- `htr.extract_handwritten_text` for the fixed input `handwritten-ans.pdf`:
returns the result dict and the two files written (remote-file deletion is
attempted and any failure swallowed, so `Env.deleteFails` has no effect). -/
def extract_handwritten_text (env : Env) : Option (Json × List (List Char × FileData)) := do
  let _ ← get_client env
  let result := extract_all_pages_handle (pyStrip env.transcriberResponse)
  let ansDefault ← jGetD result ("answers").data (.arr [])
  let ln ← lenOf ansDefault
  let found ← jGetD result ("total_questions_found").data (.num (toString ln).data)
  let _pages ← jGetD result ("pages_processed").data (.str ("?").data)
  let result2 ← jSet result ("source_pdf").data (.str ("handwritten-ans.pdf").data)
  let result3 ← jSet result2 ("api_calls_used").data (.num ("1").data)
  let answersJ ← jGetD result3 ("answers").data (.arr [])
  let answers ← match answersJ with
    | .arr l => some l
    | _ => none
  let blocks ← answers.mapM answerBlock
  let notes ← jGetD result3 ("extraction_notes").data (.str ("Clean extraction").data)
  let txt := ("# Handwritten Answers from: handwritten-ans.pdf\n").data
      ++ ("# Questions found: ").data ++ pyStr found ++ ("\n").data
      ++ ("# Notes: ").data ++ pyStr notes ++ ("\n\n").data
      ++ blocks.flatten
  some (result3, [(("handwritten-ans.json").data, .jsonData result3),
                  (("handwritten-ans.txt").data, .textData txt)])

/-- `htr_pipeline.extract_solutions`: one model call parsed by `_parse_json`
(the progress prints force dict accesses which can themselves fail). -/
def extract_solutions (env : Env) : Option Json :=
  match parse_json (pyStrip env.solutionsResponse) with
  | .ok result => do
    let sols ← jGetD result ("solutions").data (.arr [])
    let _ ← lenOf sols
    let _ ← jGetD result ("total_marks").data (.str ("N/A").data)
    some result
  | .error _ => none

/-- `htr_pipeline.grade_answers`: prompt assembly reads
`extracted_answers.get("answers", [])` and `solutions.get("solutions", [])`;
the response goes through `_parse_json` and the score print forces further
accesses (including the `:.1f` format of `percentage`). -/
def grade_answers (env : Env) (extracted solutions : Json)
    (_questionsText : List Char) : Option Json := do
  let _ ← jGetD extracted ("answers").data (.arr [])
  let _ ← jGetD solutions ("solutions").data (.arr [])
  match parse_json (pyStrip env.graderResponse) with
  | .ok result => do
    let _ ← jGetD result ("total_marks_awarded").data (.num ("0").data)
    let _ ← jGetD result ("total_marks_available").data (.num ("0").data)
    let pct ← jGetD result ("percentage").data (.num ("0").data)
    let _ ← format1f pct
    let _ ← jGetD result ("grade").data (.str ("N/A").data)
    some result
  | .error _ => none

/-- The empty solution set substituted when `solutions.txt` is missing. -/
def emptySolutions : Json :=
  .obj [(("solutions").data, .arr []), (("total_marks").data, .num ("0").data)]

/-- The console warning printed in that case. -/
def missingSolutionsWarning : List Char :=
  ("\n[Step 2] solutions.txt not found — run extractor.py first").data

/-- What a completed `run_pipeline` run leaves behind. -/
structure PipeResult where
  finalOutput : Json
  files : List (List Char × FileData)
  prints : List (List Char)

/-- `htr_pipeline.run_pipeline`. -/
def run_pipeline (env : Env) : Option PipeResult := do
  let _ ← get_client env
  let ehtr ← extract_handwritten_text env
  let solWarn ←
    if env.fileExists ("solutions.txt").data then
      (extract_solutions env).map fun s => (s, ([] : List (List Char)))
    else
      some (emptySolutions, [missingSolutionsWarning])
  let questionsText :=
    if env.fileExists ("question.txt").data then
      env.fileContent ("question.txt").data
    else []
  let grading ← grade_answers env ehtr.1 solWarn.1 questionsText
  let finalOutput := Json.obj [(("extraction").data, ehtr.1),
                               (("solutions").data, solWarn.1),
                               (("grading").data, grading)]
  let report ← generate_report ehtr.1 solWarn.1 grading
  some { finalOutput := finalOutput,
         files := ehtr.2 ++ [(("final_output.json").data, .jsonData finalOutput),
                             (("grading_report.txt").data, .textData report)],
         prints := [List.replicate 60 '=',
                    ("   PAPER CORRECTION AI  —  Full Pipeline (FREE)").data,
                    ("   Powered by Google Gemini 2.5 Flash-Lite (1000 RPD free)").data,
                    List.replicate 60 '=',
                    ("\n[Step 1] Extracting handwritten answers...").data]
                   ++ solWarn.2
                   ++ [("\n      Full output saved → final_output.json").data,
                       '\n' :: List.replicate 60 '─',
                       report] }

/-- A concrete environment exercising the missing-`solutions.txt` scenario:
the key is set, no input file exists, and every model response is the empty
JSON object. -/
def witnessEnv : Env where
  apiKey := some (("k").data)
  fileExists := fun _ => false
  fileContent := fun _ => []
  transcriberResponse := ("\x7b\x7d").data
  solutionsResponse := ("\x7b\x7d").data
  graderResponse := ("\x7b\x7d").data
  deleteFails := false

theorem digitChar_isDigit : ∀ m < 10, (Nat.digitChar m).isDigit = true := by decide

theorem digitChar_val : ∀ m < 10, (Nat.digitChar m).toNat - '0'.toNat = m := by decide

theorem toDigitsCore_all_digits : ∀ (fuel n : Nat) (acc : List Char),
    (∀ c ∈ acc, c.isDigit = true) → ∀ c ∈ Nat.toDigitsCore 10 fuel n acc, c.isDigit = true := by
  intro fuel
  induction fuel with
  | zero => intro n acc hacc; simpa [Nat.toDigitsCore] using hacc
  | succ f ih =>
    intro n acc hacc c hc
    have hmod : (Nat.digitChar (n % 10)).isDigit = true :=
      digitChar_isDigit _ (Nat.mod_lt _ (by decide))
    simp only [Nat.toDigitsCore] at hc
    by_cases h : n / 10 = 0
    · simp only [h, if_true] at hc
      rcases List.mem_cons.mp hc with rfl | hmem
      · exact hmod
      · exact hacc c hmem
    · simp only [h, if_false] at hc
      refine ih (n / 10) _ ?_ c hc
      intro c' hc'
      rcases List.mem_cons.mp hc' with rfl | hmem
      · exact hmod
      · exact hacc c' hmem

theorem toDigitsCore_acc : ∀ (fuel n : Nat) (acc : List Char),
    Nat.toDigitsCore 10 fuel n acc = Nat.toDigitsCore 10 fuel n [] ++ acc := by
  intro fuel
  induction fuel with
  | zero => intro n acc; simp [Nat.toDigitsCore]
  | succ f ih =>
    intro n acc
    simp only [Nat.toDigitsCore]
    by_cases h : n / 10 = 0
    · simp [h]
    · simp only [h, if_false]
      rw [ih (n / 10) [Nat.digitChar (n % 10)], ih (n / 10) (Nat.digitChar (n % 10) :: acc)]
      simp

theorem digitsVal_append_one (xs : List Char) (c : Char) :
    digitsVal (xs ++ [c]) = 10 * digitsVal xs + (c.toNat - '0'.toNat) := by
  simp [digitsVal, List.foldl_append]

theorem toDigitsCore_val : ∀ (fuel n : Nat), n < fuel →
    digitsVal (Nat.toDigitsCore 10 fuel n []) = n := by
  intro fuel
  induction fuel with
  | zero => omega
  | succ f ih =>
    intro n hn
    simp only [Nat.toDigitsCore]
    by_cases h : n / 10 = 0
    · have hn10 : n < 10 := by omega
      simp only [h, if_true]
      have : digitsVal [Nat.digitChar (n % 10)] = n % 10 := by
        simpa [digitsVal] using digitChar_val _ (Nat.mod_lt _ (by decide))
      rw [this]; omega
    · simp only [h, if_false]
      rw [toDigitsCore_acc, digitsVal_append_one, ih (n / 10) (by omega),
        digitChar_val _ (Nat.mod_lt _ (by decide))]
      omega

theorem toString_nat_data (n : Nat) : (toString n).data = Nat.toDigits 10 n := rfl

theorem toString_nat_all_digits (n : Nat) :
    ∀ c ∈ (toString n).data, c.isDigit = true := by
  rw [toString_nat_data]
  exact toDigitsCore_all_digits (n + 1) n [] (by simp)

theorem toString_nat_ne_nil (n : Nat) : (toString n).data ≠ [] := by
  rw [toString_nat_data]
  show Nat.toDigitsCore 10 (n + 1) n [] ≠ []
  simp only [Nat.toDigitsCore]
  by_cases h : n / 10 = 0
  · simp [h]
  · simp only [h, if_false]
    rw [toDigitsCore_acc]
    simp

theorem toString_nat_inj {m n : Nat} (h : (toString m).data = (toString n).data) :
    m = n := by
  have hm := toDigitsCore_val (m + 1) m (by omega)
  have hn := toDigitsCore_val (n + 1) n (by omega)
  rw [toString_nat_data] at h
  rw [toString_nat_data] at h
  calc m = digitsVal (Nat.toDigits 10 m) := hm.symm
    _ = digitsVal (Nat.toDigits 10 n) := by rw [h]
    _ = n := hn

theorem prefix_of_prefix_append_cons {α : Type _} {ch : α} {p b : List α} (hch : ch ∉ p) :
    ∀ (a : List α), p <+: a ++ ch :: b → p <+: a := by
  induction p with
  | nil => intro a _; exact List.nil_prefix
  | cons q p' ih =>
    intro a h
    cases a with
    | nil =>
      rw [List.nil_append, List.cons_prefix_cons] at h
      exact absurd (h.1 ▸ List.mem_cons_self q p') hch
    | cons x a' =>
      rw [List.cons_append, List.cons_prefix_cons] at h
      exact List.cons_prefix_cons.mpr
        ⟨h.1, ih (fun hm => hch (List.mem_cons_of_mem q hm)) a' h.2⟩

theorem infix_or_of_infix_append_cons {α : Type _} {ch : α} {p b : List α} (hch : ch ∉ p) :
    ∀ {a s t : List α}, s ++ p ++ t = a ++ ch :: b → p <:+: a ∨ p <:+: b := by
  intro a
  induction a with
  | nil =>
    intro s t h
    cases s with
    | nil =>
      cases p with
      | nil => exact Or.inl (List.nil_infix)
      | cons q p' =>
        simp only [List.nil_append, List.cons_append, List.cons.injEq] at h
        exact absurd (h.1 ▸ List.mem_cons_self q p') hch
    | cons y s' =>
      simp only [List.nil_append, List.cons_append, List.cons.injEq] at h
      exact Or.inr ⟨s', t, h.2⟩
  | cons x a' ih =>
    intro s t h
    cases s with
    | nil =>
      have hpre : p <+: (x :: a') ++ ch :: b := ⟨t, by simpa using h⟩
      exact Or.inl (prefix_of_prefix_append_cons hch (x :: a') hpre).isInfix
    | cons y s' =>
      simp only [List.cons_append, List.cons.injEq] at h
      rcases ih h.2 with h' | h'
      · exact Or.inl (List.infix_cons h')
      · exact Or.inr h'

theorem infix_append_cons_iff {α : Type _} {ch : α} {p a b : List α} (hch : ch ∉ p) :
    p <:+: a ++ ch :: b ↔ p <:+: a ∨ p <:+: b := by
  constructor
  · rintro ⟨s, t, h⟩
    exact infix_or_of_infix_append_cons hch h
  · rintro (⟨s, t, h⟩ | ⟨s, t, h⟩)
    · exact ⟨s, t ++ ch :: b, by rw [← h]; simp⟩
    · exact ⟨a ++ ch :: s, t, by rw [← h]; simp⟩

theorem not_prefix_cons_of_not_mem {α : Type _} {ch : α} {p b : List α}
    (hp : p ≠ []) (hch : ch ∉ p) : ¬ p <+: ch :: b := by
  intro h
  cases p with
  | nil => exact hp rfl
  | cons q p' =>
    rw [List.cons_prefix_cons] at h
    exact hch (h.1 ▸ List.mem_cons_self q p')

theorem countOccur_append_cons {ch : Char} {p : List Char} (hp : p ≠ []) (hch : ch ∉ p) :
    ∀ (a b : List Char), countOccur p (a ++ ch :: b) = countOccur p a + countOccur p b := by
  intro a b
  induction a with
  | nil =>
    simp only [List.nil_append, countOccur]
    rw [if_neg (not_prefix_cons_of_not_mem hp hch)]
  | cons x a' ih =>
    simp only [List.cons_append, countOccur, List.append_eq]
    have hiff : p <+: x :: (a' ++ ch :: b) ↔ p <+: x :: a' := by
      constructor
      · intro h
        exact prefix_of_prefix_append_cons hch (x :: a') (by simp only [List.cons_append]; exact h)
      · intro h
        refine h.trans ?_
        have := List.prefix_append (x :: a') (ch :: b)
        simp only [List.cons_append] at this
        exact this
    rw [if_congr hiff rfl rfl, ih]
    omega

theorem countOccur_eq_zero_iff {p : List Char} (hp : p ≠ []) :
    ∀ {s : List Char}, countOccur p s = 0 ↔ ∀ t, t <:+ s → ¬ p <+: t := by
  intro s
  induction s with
  | nil =>
    simp only [countOccur, true_iff]
    intro t ht
    rw [List.suffix_nil.mp ht]
    intro hpre
    exact hp (List.prefix_nil.mp hpre)
  | cons c rest ih =>
    simp only [countOccur]
    constructor
    · intro h t ht hpre
      have h1 : ¬ p <+: c :: rest := by
        intro hb; rw [if_pos hb] at h; omega
      have h2 : countOccur p rest = 0 := by
        by_cases hb : p <+: c :: rest
        · rw [if_pos hb] at h; omega
        · rw [if_neg hb] at h; omega
      rcases List.suffix_cons_iff.mp ht with rfl | ht'
      · exact h1 hpre
      · exact (ih.mp h2) t ht' hpre
    · intro h
      rw [if_neg (h _ List.suffix_rfl)]
      rw [ih.mpr (fun t ht => h t (List.suffix_cons_iff.mpr (Or.inr ht)))]

theorem removeAllGo_fuel {pat : List Char} (hp : pat ≠ []) :
    ∀ (f₁ f₂ : Nat) (s : List Char), s.length ≤ f₁ → s.length ≤ f₂ →
      removeAllGo pat f₁ s = removeAllGo pat f₂ s := by
  intro f₁
  have hplen : 1 ≤ pat.length := List.length_pos.mpr hp
  induction f₁ with
  | zero =>
    intro f₂ s h1 _
    have hs : s = [] := List.eq_nil_of_length_eq_zero (by omega)
    subst hs
    cases f₂ <;> simp [removeAllGo]
  | succ f ih =>
    intro f₂ s h1 h2
    cases s with
    | nil => cases f₂ <;> simp [removeAllGo]
    | cons c rest =>
      cases f₂ with
      | zero => simp at h2
      | succ g =>
        simp only [removeAllGo]
        by_cases htake : (c :: rest).take pat.length = pat
        · rw [if_pos htake, if_pos htake]
          refine ih g ((c :: rest).drop pat.length) ?_ ?_ <;>
            (simp only [List.length_drop, List.length_cons] at *; omega)
        · rw [if_neg htake, if_neg htake]
          exact congrArg (c :: ·)
            (ih g rest (by simp at h1; omega) (by simp at h2; omega))

theorem removeAll_cons_pos {pat : List Char} (hp : pat ≠ []) (c : Char) (rest : List Char)
    (h : (c :: rest).take pat.length = pat) :
    removeAll pat (c :: rest) = removeAll pat ((c :: rest).drop pat.length) := by
  have hplen : 1 ≤ pat.length := List.length_pos.mpr hp
  show removeAllGo pat (c :: rest).length (c :: rest) = _
  simp only [List.length_cons, removeAllGo, if_pos h]
  exact removeAllGo_fuel hp rest.length ((c :: rest).drop pat.length).length _
    (by simp only [List.length_drop, List.length_cons]; omega) le_rfl

theorem removeAll_cons_neg {pat : List Char} (hp : pat ≠ []) (c : Char) (rest : List Char)
    (h : ¬ (c :: rest).take pat.length = pat) :
    removeAll pat (c :: rest) = c :: removeAll pat rest := by
  show removeAllGo pat (c :: rest).length (c :: rest) = _
  simp only [List.length_cons, removeAllGo, if_neg h]
  exact congrArg (c :: ·) (removeAllGo_fuel hp rest.length rest.length _ le_rfl le_rfl)

theorem take_eq_iff_pref {pat l : List Char} :
    l.take pat.length = pat ↔ pat <+: l := by
  constructor
  · intro h
    exact List.prefix_iff_eq_take.mpr h.symm
  · intro h
    exact (List.prefix_iff_eq_take.mp h).symm

theorem removeAll_of_not_infix {pat : List Char} (hp : pat ≠ []) :
    ∀ (s : List Char), ¬ pat <:+: s → removeAll pat s = s := by
  intro s
  induction s with
  | nil => intro _; rfl
  | cons c rest ih =>
    intro hinf
    have hnp : ¬ (c :: rest).take pat.length = pat := by
      intro h
      exact hinf (take_eq_iff_pref.mp h).isInfix
    rw [removeAll_cons_neg hp c rest hnp, ih (fun h => hinf (List.infix_cons h))]

theorem removeAll_append_self {pat : List Char} (hp : pat ≠ []) (rest : List Char) :
    removeAll pat (pat ++ rest) = removeAll pat rest := by
  cases pat with
  | nil => exact absurd rfl hp
  | cons p ps =>
    have htake : ((p :: ps) ++ rest).take (p :: ps).length = p :: ps :=
      List.take_left (p :: ps) rest
    have hdrop : ((p :: ps) ++ rest).drop (p :: ps).length = rest :=
      List.drop_left (p :: ps) rest
    rw [List.cons_append] at htake hdrop ⊢
    rw [removeAll_cons_pos hp p (ps ++ rest) htake, hdrop]

theorem removeAll_pass_sep {pat : List Char} {ch : Char} (hp : pat ≠ []) (hch : ch ∉ pat) :
    ∀ (a b : List Char), ¬ pat <:+: a ++ [ch] →
      removeAll pat ((a ++ [ch]) ++ (pat ++ b)) = (a ++ [ch]) ++ removeAll pat b := by
  intro a
  induction a with
  | nil =>
    intro b _
    simp only [List.nil_append, List.cons_append]
    rw [removeAll_cons_neg hp ch (pat ++ b)
      (fun h => not_prefix_cons_of_not_mem hp hch (take_eq_iff_pref.mp h)),
      removeAll_append_self hp b]
  | cons x a' ih =>
    intro b hinf
    have hshape : ((x :: a') ++ [ch]) ++ (pat ++ b) = x :: ((a' ++ [ch]) ++ (pat ++ b)) := by
      simp
    rw [hshape]
    have hnp : ¬ (x :: ((a' ++ [ch]) ++ (pat ++ b))).take pat.length = pat := by
      intro htake
      have hpre : pat <+: ((x :: a') ++ [ch]) ++ (pat ++ b) := by
        rw [hshape]; exact take_eq_iff_pref.mp htake
      by_cases hlen : pat.length ≤ ((x :: a') ++ [ch]).length
      · have : pat <+: (x :: a') ++ [ch] :=
          List.prefix_of_prefix_length_le hpre (List.prefix_append _ _) hlen
        exact hinf this.isInfix
      · have : (x :: a') ++ [ch] <+: pat :=
          List.prefix_of_prefix_length_le (List.prefix_append _ _) hpre (by omega)
        exact hch (this.subset (by simp))
    rw [removeAll_cons_neg hp x ((a' ++ [ch]) ++ (pat ++ b)) hnp,
      ih b (fun h => hinf (List.infix_cons h))]
    simp

theorem jsonWs_imp_pySpace {c : Char} (h : isJsonWs c = true) : isPySpace c = true := by
  simp only [isJsonWs, Bool.or_eq_true, decide_eq_true_eq] at h
  simp only [isPySpace, Bool.or_eq_true, decide_eq_true_eq]
  tauto

theorem pyStrip_cons_ws {c : Char} (h : isPySpace c = true) (s : List Char) :
    pyStrip (c :: s) = pyStrip s := by
  simp [pyStrip, List.dropWhile_cons, h]

theorem pyStrip_concat_ws {c : Char} (h : isPySpace c = true) (s : List Char) :
    pyStrip (s ++ [c]) = pyStrip s := by
  unfold pyStrip
  rw [List.dropWhile_append]
  by_cases he : (s.dropWhile isPySpace).isEmpty
  · rw [if_pos he]
    rw [List.isEmpty_iff.mp he]
    simp [List.dropWhile_cons, h, List.rdropWhile]
  · rw [if_neg he]
    exact List.rdropWhile_concat_pos _ _ _ h

theorem stripJsonWs_cons_ws {c : Char} (h : isJsonWs c = true) (s : List Char) :
    stripJsonWs (c :: s) = stripJsonWs s := by
  simp [stripJsonWs, List.dropWhile_cons, h]

theorem stripJsonWs_concat_ws {c : Char} (h : isJsonWs c = true) (s : List Char) :
    stripJsonWs (s ++ [c]) = stripJsonWs s := by
  unfold stripJsonWs
  rw [List.dropWhile_append]
  by_cases he : (s.dropWhile isJsonWs).isEmpty
  · rw [if_pos he]
    rw [List.isEmpty_iff.mp he]
    simp [List.dropWhile_cons, h, List.rdropWhile]
  · rw [if_neg he]
    exact List.rdropWhile_concat_pos _ _ _ h

theorem strip_components {s : List Char} (h : pyStrip s = s) :
    s.dropWhile isPySpace = s ∧ s.rdropWhile isPySpace = s := by
  have h1 : (s.dropWhile isPySpace).rdropWhile isPySpace <+: s.dropWhile isPySpace :=
    List.rdropWhile_prefix _ _
  have h2 : s.dropWhile isPySpace <:+ s := List.dropWhile_suffix _
  have hlen : s.length ≤ (s.dropWhile isPySpace).length := by
    have := h1.length_le
    have := congrArg List.length h
    simp only [pyStrip] at this
    omega
  have hd : s.dropWhile isPySpace = s := h2.eq_of_length_le hlen
  refine ⟨hd, ?_⟩
  have := h
  rw [pyStrip, hd] at this
  exact this

theorem stripJsonWs_of_pyStrip_id {s : List Char} (h : pyStrip s = s) :
    stripJsonWs s = s := by
  obtain ⟨hd, hr⟩ := strip_components h
  unfold stripJsonWs
  have hd' : s.dropWhile isJsonWs = s := by
    rw [List.dropWhile_eq_self_iff] at hd ⊢
    intro hl hjs
    exact hd hl (jsonWs_imp_pySpace hjs)
  rw [hd']
  rw [List.rdropWhile_eq_self_iff] at hr ⊢
  intro hl hjs
  exact hr hl (jsonWs_imp_pySpace hjs)

theorem jsonLoads_of_stripped {s : List Char} (h : pyStrip s = s) :
    jsonLoads s = jsonLoadsCore s := by
  unfold jsonLoads
  rw [stripJsonWs_of_pyStrip_id h]

theorem jsonLoads_cons_ws {c : Char} (h : isJsonWs c = true) (s : List Char) :
    jsonLoads (c :: s) = jsonLoads s := by
  unfold jsonLoads
  rw [stripJsonWs_cons_ws h]

theorem jsonLoads_concat_ws {c : Char} (h : isJsonWs c = true) (s : List Char) :
    jsonLoads (s ++ [c]) = jsonLoads s := by
  unfold jsonLoads
  rw [stripJsonWs_concat_ws h]

theorem rdropWhile_append_of_pos {p : Char → Bool} {post : List Char}
    (h : ∀ c ∈ post, p c = true) (l : List Char) :
    (l ++ post).rdropWhile p = l.rdropWhile p := by
  unfold List.rdropWhile
  rw [List.reverse_append, List.dropWhile_append_of_pos (by simpa using h)]

theorem dropWhile_decompose (p : Char → Bool) (l : List Char) :
    l = l.rdropWhile p ++ (l.reverse.takeWhile p).reverse ∧
      ∀ c ∈ (l.reverse.takeWhile p).reverse, p c = true := by
  constructor
  · conv_lhs => rw [← List.reverse_reverse l,
      ← List.takeWhile_append_dropWhile p l.reverse]
    rw [List.reverse_append]
    rfl
  · intro c hc
    rw [List.mem_reverse] at hc
    exact List.mem_takeWhile_imp hc

theorem extractBraceBlock_eq_some_iff (s b : List Char) :
    extractBraceBlock s = some b ↔
      ∃ pre mid post, s = pre ++ '\x7b' :: (mid ++ '\x7d' :: post) ∧
        '\x7b' ∉ pre ∧ '\x7d' ∉ post ∧ b = '\x7b' :: (mid ++ ['\x7d']) := by
  constructor
  · intro h
    unfold extractBraceBlock at h
    obtain ⟨hdec, hdropped⟩ :=
      dropWhile_decompose (fun c => !(c = '\x7d')) (s.dropWhile fun c => !(c = '\x7b'))
    have hh1 := List.head?_dropWhile_not (fun c => !(c = '\x7b')) s
    have hh2 := List.head?_dropWhile_not (fun c => !(c = '\x7d'))
      (s.dropWhile fun c => !(c = '\x7b')).reverse
    have hsplit := List.takeWhile_append_dropWhile (fun c => !(c = '\x7b')) s
    have hpre_mem : '\x7b' ∉ s.takeWhile fun c => !(c = '\x7b') := by
      intro hmem
      have := List.mem_takeWhile_imp hmem
      simp at this
    have hrev : ((s.dropWhile fun c => !(c = '\x7b')).reverse.dropWhile
        fun c => !(c = '\x7d'))
        = ((s.dropWhile fun c => !(c = '\x7b')).rdropWhile fun c => !(c = '\x7d')).reverse := by
      simp [List.rdropWhile]
    generalize hpost : ((s.dropWhile fun c => !(c = '\x7b')).reverse.takeWhile
        fun c => !(c = '\x7d')).reverse = postV at hdec hdropped
    generalize hcore : ((s.dropWhile fun c => !(c = '\x7b')).rdropWhile
        fun c => !(c = '\x7d')) = coreV at h hdec hrev
    generalize hpreV : (s.takeWhile fun c => !(c = '\x7b')) = preV at hsplit hpre_mem
    generalize hdw : (s.dropWhile fun c => !(c = '\x7b')) = dwV at hdec hh1 hh2 hrev hsplit
    by_cases hlen : 2 ≤ coreV.length
    · rw [if_pos hlen] at h
      have hbeq : coreV = b := by injection h
      cases hb0 : coreV with
      | nil => rw [hb0] at hlen; simp at hlen
      | cons c0 ct =>
        rcases List.eq_nil_or_concat ct with hct | ⟨mid, clast, hct⟩
        · rw [hb0, hct] at hlen; simp at hlen
        · rw [hb0, hct] at hdec hrev
          have hc0 : c0 = '\x7b' := by
            rw [hdec] at hh1
            simp only [List.concat_eq_append, List.cons_append, List.head?_cons] at hh1
            simpa using hh1
          have hclast : clast = '\x7d' := by
            rw [hrev] at hh2
            simp only [List.concat_eq_append, List.reverse_cons, List.reverse_append,
              List.reverse_nil, List.nil_append, List.cons_append, List.head?_cons] at hh2
            simpa using hh2
          refine ⟨preV, mid, postV, ?_, hpre_mem, ?_, ?_⟩
          · rw [← hsplit, hdec, hc0, hclast]
            simp [List.concat_eq_append]
          · intro hmem
            have := hdropped _ hmem
            simp at this
          · rw [← hbeq, hb0, hct, hc0, hclast]
            simp [List.concat_eq_append]
    · rw [if_neg hlen] at h
      exact absurd h (by simp)
  · rintro ⟨pre, mid, post, rfl, hpre, hpost, rfl⟩
    unfold extractBraceBlock
    have h1 : (pre ++ '\x7b' :: (mid ++ '\x7d' :: post)).dropWhile (fun c => !(c = '\x7b'))
        = '\x7b' :: (mid ++ '\x7d' :: post) := by
      rw [List.dropWhile_append_of_pos]
      · rw [List.dropWhile_cons]
        simp
      · intro c hc
        simp only [Bool.not_eq_true']
        exact decide_eq_false (fun hcc => hpre (hcc ▸ hc))
    rw [h1]
    have hshape : '\x7b' :: (mid ++ '\x7d' :: post)
        = (('\x7b' :: mid) ++ ['\x7d']) ++ post := by simp
    rw [hshape]
    rw [rdropWhile_append_of_pos]
    · rw [List.rdropWhile_concat_neg]
      · simp
      · simp
    · intro c hc
      simp only [Bool.not_eq_true']
      exact decide_eq_false (fun hcc => hpost (hcc ▸ hc))

theorem pageMarker_eq (j : Nat) : pageMarker j =
    '-' :: '-' :: '-' :: ' ' :: 'P' :: 'a' :: 'g' :: 'e' :: ' ' ::
      ((toString j).data ++ (' ' :: '-' :: '-' :: '-' :: [])) := rfl

theorem pageMarker_length (j : Nat) :
    (pageMarker j).length = 13 + (toString j).data.length := by
  rw [pageMarker_eq]
  simp
  omega

theorem pageMarker_length_ge (j : Nat) : 14 ≤ (pageMarker j).length := by
  rw [pageMarker_length]
  have h1 : (toString j).data ≠ [] := toString_nat_ne_nil j
  have : 1 ≤ (toString j).data.length := List.length_pos.mpr h1
  omega

theorem pageMarker_ne_nil (j : Nat) : pageMarker j ≠ [] := by
  rw [pageMarker_eq]
  simp

theorem pageMarker_no_newline (j : Nat) : '\n' ∉ pageMarker j := by
  intro hmem
  unfold pageMarker at hmem
  rcases List.mem_append.mp hmem with h | h
  · rcases List.mem_append.mp h with h | h
    · exact absurd h (by decide)
    · exact absurd (toString_nat_all_digits j _ h) (by decide)
  · exact absurd h (by decide)

theorem digit_block_eq : ∀ (xs ys : List Char), (∀ c ∈ xs, c.isDigit = true) →
    (∀ c ∈ ys, c.isDigit = true) → ∀ (r : List Char),
    xs ++ ' ' :: r <+: ys ++ ' ' :: r → xs = ys := by
  intro xs
  induction xs with
  | nil =>
    intro ys _ hy r h
    cases ys with
    | nil => rfl
    | cons y ys' =>
      rw [List.nil_append, List.cons_append, List.cons_prefix_cons] at h
      have := hy y (List.mem_cons_self y ys')
      rw [← h.1] at this
      simp at this
  | cons x xs' ih =>
    intro ys hx hy r h
    cases ys with
    | nil =>
      rw [List.nil_append, List.cons_append, List.cons_prefix_cons] at h
      have := hx x (List.mem_cons_self x xs')
      rw [h.1] at this
      simp at this
    | cons y ys' =>
      rw [List.cons_append, List.cons_append, List.cons_prefix_cons] at h
      rw [h.1, ih ys' (fun c hc => hx c (List.mem_cons_of_mem x hc))
        (fun c hc => hy c (List.mem_cons_of_mem y hc)) r h.2]

theorem pageMarker_prefix_iff (j k : Nat) :
    pageMarker j <+: pageMarker k ↔ j = k := by
  constructor
  · intro h
    rw [pageMarker_eq, pageMarker_eq] at h
    simp only [List.cons_prefix_cons, true_and] at h
    have := digit_block_eq (toString j).data (toString k).data
      (toString_nat_all_digits j) (toString_nat_all_digits k) ('-' :: '-' :: '-' :: []) h
    exact toString_nat_inj this
  · rintro rfl
    exact List.prefix_rfl

theorem no_marker_in_digits_tail (j : Nat) :
    ∀ (ds : List Char), (∀ c ∈ ds, c.isDigit = true) →
    ∀ t, t <:+ ds ++ (' ' :: '-' :: '-' :: '-' :: []) → ¬ pageMarker j <+: t := by
  intro ds
  induction ds with
  | nil =>
    intro _ t ht hpre
    have h1 : t.length ≤ 4 := by
      have := ht.length_le
      simpa using this
    have h2 := hpre.length_le
    have := pageMarker_length_ge j
    omega
  | cons d ds' ih =>
    intro hd t ht hpre
    rw [List.cons_append] at ht
    rcases List.suffix_cons_iff.mp ht with rfl | ht'
    · rw [pageMarker_eq, List.cons_prefix_cons] at hpre
      have := hd d (List.mem_cons_self d ds')
      rw [← hpre.1] at this
      simp at this
    · exact ih (fun c hc => hd c (List.mem_cons_of_mem d hc)) t ht' hpre

theorem no_marker_in_marker_tail (j k : Nat) :
    ∀ t, t <:+ '-' :: '-' :: ' ' :: 'P' :: 'a' :: 'g' :: 'e' :: ' ' ::
      ((toString k).data ++ (' ' :: '-' :: '-' :: '-' :: [])) →
    ¬ pageMarker j <+: t := by
  intro t ht hpre
  rcases List.suffix_cons_iff.mp ht with rfl | ht
  · rw [pageMarker_eq] at hpre; simp [List.cons_prefix_cons] at hpre
  · rcases List.suffix_cons_iff.mp ht with rfl | ht
    · rw [pageMarker_eq] at hpre; simp [List.cons_prefix_cons] at hpre
    · rcases List.suffix_cons_iff.mp ht with rfl | ht
      · rw [pageMarker_eq] at hpre; simp [List.cons_prefix_cons] at hpre
      · rcases List.suffix_cons_iff.mp ht with rfl | ht
        · rw [pageMarker_eq] at hpre; simp [List.cons_prefix_cons] at hpre
        · rcases List.suffix_cons_iff.mp ht with rfl | ht
          · rw [pageMarker_eq] at hpre; simp [List.cons_prefix_cons] at hpre
          · rcases List.suffix_cons_iff.mp ht with rfl | ht
            · rw [pageMarker_eq] at hpre; simp [List.cons_prefix_cons] at hpre
            · rcases List.suffix_cons_iff.mp ht with rfl | ht
              · rw [pageMarker_eq] at hpre; simp [List.cons_prefix_cons] at hpre
              · rcases List.suffix_cons_iff.mp ht with rfl | ht
                · rw [pageMarker_eq] at hpre; simp [List.cons_prefix_cons] at hpre
                · exact no_marker_in_digits_tail j (toString k).data
                    (toString_nat_all_digits k) t ht hpre

theorem countOccur_cons (p : List Char) (c : Char) (rest : List Char) :
    countOccur p (c :: rest) = (if p <+: c :: rest then 1 else 0) + countOccur p rest := rfl

theorem countOccur_marker_marker (j k : Nat) :
    countOccur (pageMarker j) (pageMarker k) = if j = k then 1 else 0 := by
  have htail : countOccur (pageMarker j)
      ('-' :: '-' :: ' ' :: 'P' :: 'a' :: 'g' :: 'e' :: ' ' ::
        ((toString k).data ++ (' ' :: '-' :: '-' :: '-' :: []))) = 0 :=
    (countOccur_eq_zero_iff (pageMarker_ne_nil j)).mpr
      (no_marker_in_marker_tail j k)
  have hstep : countOccur (pageMarker j) (pageMarker k)
      = (if pageMarker j <+: pageMarker k then 1 else 0) + 0 := by
    conv_lhs => rw [pageMarker_eq k]
    rw [countOccur_cons, htail, ← pageMarker_eq k]
  rw [hstep]
  by_cases hjk : j = k
  · rw [if_pos hjk, if_pos (by rw [hjk])]
  · rw [if_neg hjk, if_neg (fun hpre => hjk ((pageMarker_prefix_iff j k).mp hpre))]

theorem fmt1_shape (q : ℚ) : ∃ pre d, fmt1 q = pre ++ '.' :: d :: [] ∧ d.isDigit = true := by
  refine ⟨(if roundHalfEven (q * 10) < 0 ∨ (roundHalfEven (q * 10) = 0 ∧ q < 0)
      then ['-'] else []) ++ (toString ((roundHalfEven (q * 10)).natAbs / 10)).data,
    Nat.digitChar ((roundHalfEven (q * 10)).natAbs % 10), ?_, ?_⟩
  · simp [fmt1, List.append_assoc]
  · exact digitChar_isDigit _ (Nat.mod_lt _ (by decide))

theorem format1f_shape (j : Json) (s : List Char) (h : format1f j = some s) :
    ∃ pre d, s = pre ++ '.' :: d :: [] ∧ d.isDigit = true := by
  cases j with
  | num tok =>
    obtain rfl : fmt1 (tokVal tok) = s := by injection h
    exact fmt1_shape _
  | bool b =>
    cases b with
    | true =>
      obtain rfl : fmt1 1 = s := by injection h
      exact fmt1_shape _
    | false =>
      obtain rfl : fmt1 0 = s := by injection h
      exact fmt1_shape _
  | null => exact absurd h (by simp [format1f])
  | str s' => exact absurd h (by simp [format1f])
  | arr l => exact absurd h (by simp [format1f])
  | obj m => exact absurd h (by simp [format1f])

/-- Claim C1: whenever a (stripped) model response can be parsed neither by
the fence-stripping attempt nor by the brace-block attempt,
`extract_all_pages` does not raise: it returns the degraded result, whose
`total_questions_found` is 0, whose `answers` list is exactly one record of
type `raw` carrying the whole raw text, and whose `extraction_notes` is a
fixed non-empty parse-failure note. -/
theorem c1_degraded_on_unparseable (raw : List Char)
    (h1 : jsonLoads (cleanFence raw) = none)
    (h2 : ∀ b, extractBraceBlock raw = some b → jsonLoads b = none) :
    extract_all_pages_handle raw = degradedResult raw ∧
    jGetD (degradedResult raw) (("total_questions_found").data) Json.null
      = some (.num (("0").data)) ∧
    jGetD (degradedResult raw) (("answers").data) Json.null
      = some (.arr [.obj [((("question_number").data), .str (("?").data)),
          ((("answer_text").data), .str raw),
          ((("answer_type").data), .str (("raw").data))]]) ∧
    jGetD (degradedResult raw) (("extraction_notes").data) Json.null
      = some (.str (("JSON parse failed — raw text included").data)) ∧
    ("JSON parse failed — raw text included").data ≠ [] := by
  refine ⟨?_, rfl, rfl, rfl, by simp⟩
  unfold extract_all_pages_handle
  rw [h1]
  cases hb : extractBraceBlock raw with
  | none => rfl
  | some b =>
    show (match jsonLoads b with
      | some v => v
      | none => degradedResult raw) = degradedResult raw
    rw [h2 b hb]

/-- Witness for C1 at the response `"hello"`. -/
theorem c1_degraded_on_unparseable_witness :
    extract_all_pages_handle (("hello").data) = degradedResult (("hello").data) ∧
    jGetD (degradedResult (("hello").data)) (("total_questions_found").data) Json.null
      = some (.num (("0").data)) ∧
    jGetD (degradedResult (("hello").data)) (("answers").data) Json.null
      = some (.arr [.obj [((("question_number").data), .str (("?").data)),
          ((("answer_text").data), .str (("hello").data)),
          ((("answer_type").data), .str (("raw").data))]]) ∧
    jGetD (degradedResult (("hello").data)) (("extraction_notes").data) Json.null
      = some (.str (("JSON parse failed — raw text included").data)) ∧
    ("JSON parse failed — raw text included").data ≠ [] :=
  c1_degraded_on_unparseable (("hello").data) rfl
    (fun b hb => by
      rw [show extractBraceBlock (("hello").data) = none from rfl] at hb
      cases hb)

/-- Counterexample to claim C2 as stated: on `"x {bad} y"` both parse
attempts fail, yet `_parse_json` raises the decoder's own error (the
`json.loads` failure on the extracted block propagates out of the `except`
clause), not the `ValueError` carrying the first 300 characters of the raw
output. -/
theorem c2_counterexample :
    parse_json (("x \x7bbad\x7d y").data) = .error .decodeErr ∧
    ∀ msg, PErr.decodeErr ≠ PErr.valueErr msg := by
  refine ⟨rfl, fun msg h => ?_⟩
  cases h

/-- Claim C2 amended: when both parse attempts fail, `_parse_json` always
raises (never returns a value); the error message carries the first 300
characters of the raw output exactly when no brace-delimited block was
found, while a failing parse of an extracted block propagates the decode
error instead. -/
theorem c2_raises_on_unparseable (raw : List Char)
    (h1 : jsonLoads (cleanFence raw) = none)
    (h2 : ∀ b, extractBraceBlock raw = some b → jsonLoads b = none) :
    ∃ e, parse_json raw = .error e ∧
      (extractBraceBlock raw = none →
        ∃ m, e = .valueErr m ∧ raw.take 300 <:+ m) ∧
      (∀ b, extractBraceBlock raw = some b → e = .decodeErr) := by
  unfold parse_json
  rw [h1]
  cases hb : extractBraceBlock raw with
  | none =>
    exact ⟨.valueErr ((("Could not parse response as JSON:\n").data) ++ raw.take 300),
      rfl, fun _ => ⟨_, rfl, ⟨("Could not parse response as JSON:\n").data, rfl⟩⟩,
      fun b hb' => by cases hb'⟩
  | some b =>
    refine ⟨.decodeErr, ?_, ?_, ?_⟩
    · show (match jsonLoads b with
        | some v => (Except.ok v : Except PErr Json)
        | none => Except.error PErr.decodeErr) = Except.error PErr.decodeErr
      rw [h2 b hb]
    · intro h
      cases h
    · intro b' _
      rfl

/-- Witness for the amended C2 at the brace-free response `"oops"`. -/
theorem c2_raises_on_unparseable_witness :
    ∃ m, parse_json (("oops").data) = .error (.valueErr m) ∧
      (("oops").data).take 300 <:+ m := by
  obtain ⟨e, he, hnone, _⟩ := c2_raises_on_unparseable (("oops").data) rfl
    (fun b hb => by
      rw [show extractBraceBlock (("oops").data) = none from rfl] at hb
      cases hb)
  obtain ⟨m, rfl, hm⟩ := hnone rfl
  exact ⟨m, he, hm⟩

/-- Counterexample to claim C3 as stated: on a response holding two brace
blocks, the greedy regex extracts the span from the first opening brace to
the last closing brace — not the first top-level block — and parsing that
span fails, although the first block alone is valid JSON. -/
theorem c3_counterexample :
    extractBraceBlock (("a \x7b\"a\": 1\x7d b \x7b\"b\": 2\x7d c").data)
      = some (("\x7b\"a\": 1\x7d b \x7b\"b\": 2\x7d").data) ∧
    (("\x7b\"a\": 1\x7d b \x7b\"b\": 2\x7d").data) ≠ (("\x7b\"a\": 1\x7d").data) ∧
    jsonLoads ((("\x7b\"a\": 1\x7d").data))
      = some (.obj [((("a").data), .num (("1").data))]) ∧
    parse_json (("a \x7b\"a\": 1\x7d b \x7b\"b\": 2\x7d c").data) = .error .decodeErr := by
  refine ⟨rfl, ?_, rfl, rfl⟩
  intro h
  have := congrArg List.length h
  simp at this

/-- Claim C3 amended: the secondary repair extracts the span from the first
opening brace to the last closing brace of the response (characterised
below), and parses that span; in particular, for a response consisting of a
single well-formed JSON object preceded by prose without opening braces and
followed by prose without closing braces, it returns exactly the parse of
that embedded object. -/
theorem c3_brace_block_extraction :
    (∀ s b, extractBraceBlock s = some b ↔
      ∃ pre mid post, s = pre ++ '\x7b' :: (mid ++ '\x7d' :: post) ∧
        '\x7b' ∉ pre ∧ '\x7d' ∉ post ∧ b = '\x7b' :: (mid ++ ['\x7d'])) ∧
    (∀ pre mid post v, '\x7b' ∉ pre → '\x7d' ∉ post →
      jsonLoads (cleanFence (pre ++ '\x7b' :: (mid ++ '\x7d' :: post))) = none →
      jsonLoads ('\x7b' :: (mid ++ ['\x7d'])) = some v →
      parse_json (pre ++ '\x7b' :: (mid ++ '\x7d' :: post)) = .ok v ∧
      extract_all_pages_handle (pre ++ '\x7b' :: (mid ++ '\x7d' :: post)) = v) := by
  refine ⟨extractBraceBlock_eq_some_iff, ?_⟩
  intro pre mid post v hpre hpost hfence hv
  have hext : extractBraceBlock (pre ++ '\x7b' :: (mid ++ '\x7d' :: post))
      = some ('\x7b' :: (mid ++ ['\x7d'])) :=
    (extractBraceBlock_eq_some_iff _ _).mpr ⟨pre, mid, post, rfl, hpre, hpost, rfl⟩
  constructor
  · unfold parse_json
    rw [hfence, hext]
    show (match jsonLoads ('\x7b' :: (mid ++ ['\x7d'])) with
      | some v => (Except.ok v : Except PErr Json)
      | none => Except.error PErr.decodeErr) = Except.ok v
    rw [hv]
  · unfold extract_all_pages_handle
    rw [hfence, hext]
    show (match jsonLoads ('\x7b' :: (mid ++ ['\x7d'])) with
      | some w => w
      | none => degradedResult (pre ++ '\x7b' :: (mid ++ '\x7d' :: post))) = v
    rw [hv]

/-- Witness for the amended C3: prose around a single JSON object. -/
theorem c3_brace_block_extraction_witness :
    parse_json ((("p ").data) ++ '\x7b' :: ((("\"k\": true").data) ++ '\x7d' :: ((" q").data)))
      = .ok (.obj [((("k").data), .bool true)]) ∧
    extract_all_pages_handle
        ((("p ").data) ++ '\x7b' :: ((("\"k\": true").data) ++ '\x7d' :: ((" q").data)))
      = .obj [((("k").data), .bool true)] :=
  c3_brace_block_extraction.2 (("p ").data) (("\"k\": true").data) ((" q").data)
    (.obj [((("k").data), .bool true)]) (by decide) (by decide) rfl rfl

/-- Counterexample to claim C4 as stated: `str.replace` deletes fence
markers everywhere, so a fenced object whose string value contains a fence
parses differently from the response with only the wrapping fences
stripped. -/
theorem c4_counterexample :
    parse_json (("```json\n\x7b\"a\": \"x```y\"\x7d\n```").data)
      = .ok (.obj [((("a").data), .str (("xy").data))]) ∧
    jsonLoads (("\n\x7b\"a\": \"x```y\"\x7d\n").data)
      = some (.obj [((("a").data), .str (("x```y").data))]) ∧
    Json.obj [((("a").data), .str (("xy").data))]
      ≠ Json.obj [((("a").data), .str (("x```y").data))] := by
  refine ⟨rfl, rfl, ?_⟩
  intro h
  simp only [Json.obj.injEq, List.cons.injEq, Prod.mk.injEq, Json.str.injEq, and_true,
    true_and] at h
  exact absurd h.1 (by decide)

/-- Claim C4 amended: for a response `"```json\n" + C + "\n```"` whose
content `C` carries no surrounding whitespace and no occurrence of the
fence string, the repair step returns exactly the object obtained by
parsing the response with the wrapping fence markers stripped. -/
theorem c4_fenced_parse (C : List Char) (v : Json)
    (hfence : ¬ (("```").data <:+: C))
    (hstrip : pyStrip C = C)
    (hv : jsonLoads ('\n' :: (C ++ ['\n'])) = some v) :
    parse_json ((("```json\n").data) ++ C ++ (("\n```").data)) = .ok v ∧
    extract_all_pages_handle ((("```json\n").data) ++ C ++ (("\n```").data)) = v := by
  have hp7 : (("```json").data) ≠ [] := by decide
  have hp3 : (("```").data) ≠ [] := by decide
  have hn7 : '\n' ∉ ("```json").data := by decide
  have hn3 : '\n' ∉ ("```").data := by decide
  have hsub : ("```").data <:+: ("```json").data := by decide
  have h7C : ¬ (("```json").data <:+: C) := fun h => hfence (hsub.trans h)
  have hshape : (("```json\n").data) ++ C ++ (("\n```").data)
      = ("```json").data ++ ('\n' :: (C ++ ('\n' :: ("```").data))) := by
    simp
  have hinf1 : ¬ (("```json").data <:+: ('\n' :: (C ++ ('\n' :: ("```").data)))) := by
    intro h
    rcases (@infix_append_cons_iff Char '\n' (("```json").data) []
        (C ++ ('\n' :: ("```").data)) hn7).mp h with h' | h'
    · exact absurd h' (by decide)
    · rcases (@infix_append_cons_iff Char '\n' (("```json").data) C
          (("```").data) hn7).mp h' with h'' | h''
      · exact h7C h''
      · exact absurd h'' (by decide)
  have hinf2 : ¬ (("```").data <:+: (('\n' :: C) ++ ['\n'])) := by
    intro h
    have h0 : ("```").data <:+: ('\n' :: (C ++ ['\n'])) := by
      simpa using h
    rcases (@infix_append_cons_iff Char '\n' (("```").data) []
        (C ++ ['\n']) hn3).mp h0 with h' | h'
    · exact absurd h' (by decide)
    · rcases (@infix_append_cons_iff Char '\n' (("```").data) C [] hn3).mp h' with h'' | h''
      · exact hfence h''
      · exact absurd h'' (by decide)
  have hstep1 : removeAll (("```json").data) ((("```json\n").data) ++ C ++ (("\n```").data))
      = '\n' :: (C ++ ('\n' :: ("```").data)) := by
    rw [hshape, removeAll_append_self hp7, removeAll_of_not_infix hp7 _ hinf1]
  have hstep2 : removeAll (("```").data) ('\n' :: (C ++ ('\n' :: ("```").data)))
      = ('\n' :: C) ++ ['\n'] := by
    have hps := removeAll_pass_sep hp3 hn3 ('\n' :: C) [] hinf2
    rw [show ('\n' :: (C ++ ('\n' :: ("```").data)))
        = (('\n' :: C) ++ ['\n']) ++ ((("```").data) ++ []) from by simp]
    rw [hps, show removeAll (("```").data) [] = [] from rfl, List.append_nil]
  have hclean : cleanFence ((("```json\n").data) ++ C ++ (("\n```").data)) = C := by
    unfold cleanFence
    rw [hstep1, hstep2, pyStrip_concat_ws (by decide), pyStrip_cons_ws (by decide), hstrip]
  have hv' : jsonLoads C = some v := by
    rw [jsonLoads_cons_ws (by decide), jsonLoads_concat_ws (by decide)] at hv
    exact hv
  constructor
  · unfold parse_json
    rw [hclean, hv']
  · unfold extract_all_pages_handle
    rw [hclean, hv']

/-- Witness for the amended C4 on a fence-free fenced object. -/
theorem c4_fenced_parse_witness :
    parse_json ((("```json\n").data) ++ (("\x7b\"a\": 1\x7d").data) ++ (("\n```").data))
      = .ok (.obj [((("a").data), .num (("1").data))]) ∧
    extract_all_pages_handle
        ((("```json\n").data) ++ (("\x7b\"a\": 1\x7d").data) ++ (("\n```").data))
      = .obj [((("a").data), .num (("1").data))] :=
  c4_fenced_parse (("\x7b\"a\": 1\x7d").data) (.obj [((("a").data), .num (("1").data))])
    (by decide) rfl rfl

/-- Claim C9: the first-tier repair deletes every occurrence of the fence
substrings anywhere in the response (shown both on a bare string with inner
fences only and on a fenced object), so a well-formed fenced response whose
string value contains a fence parses to an object that differs from the
parse of the response with only the wrapping fences removed. -/
theorem c9_fences_deleted_everywhere :
    removeAll (("```").data) (("a```b```c").data) = ("abc").data ∧
    cleanFence (("```json\n\x7b\"a\": \"x```y\"\x7d\n```").data)
      = ("\x7b\"a\": \"xy\"\x7d").data ∧
    parse_json (("```json\n\x7b\"a\": \"x```y\"\x7d\n```").data)
      = .ok (.obj [((("a").data), .str (("xy").data))]) ∧
    jsonLoads (("\n\x7b\"a\": \"x```y\"\x7d\n").data)
      = some (.obj [((("a").data), .str (("x```y").data))]) ∧
    Json.obj [((("a").data), .str (("xy").data))]
      ≠ Json.obj [((("a").data), .str (("x```y").data))] := by
  refine ⟨rfl, rfl, rfl, rfl, ?_⟩
  intro h
  simp only [Json.obj.injEq, List.cons.injEq, Prod.mk.injEq, Json.str.injEq, and_true,
    true_and] at h
  exact absurd h.1 (by decide)



theorem reportLines_decomposed (e s g : Json) (L : List (List Char))
    (h : reportLines e s g = some L) :
    ∃ src tqf awarded available pct pctTxt grade ofb results recs,
      jGetD e (("source_pdf").data) (.str (("N/A").data)) = some src ∧
      jGetD e (("total_questions_found").data) (.num (("0").data)) = some tqf ∧
      jGetD g (("total_marks_awarded").data) (.num (("0").data)) = some awarded ∧
      jGetD g (("total_marks_available").data) (.num (("0").data)) = some available ∧
      jGetD g (("percentage").data) (.num (("0").data)) = some pct ∧
      format1f pct = some pctTxt ∧
      jGetD g (("grade").data) (.str (("N/A").data)) = some grade ∧
      jGetD g (("overall_feedback").data) (.str [])  = some ofb ∧
      jGetD g (("results").data) (.arr []) = some (.arr results) ∧
      results.mapM recLines = some recs ∧
      L = [List.replicate 60 '=',
           ("         PAPER CORRECTION REPORT").data,
           List.replicate 60 '=',
           ("\nSource: ").data ++ pyStr src,
           ("Questions extracted: ").data ++ pyStr tqf,
           ("\n── SCORE SUMMARY ").data ++ List.replicate 43 '─',
           ("  Total Marks : ").data ++ pyStr awarded ++ (" / ").data ++ pyStr available,
           ("  Percentage  : ").data ++ pctTxt ++ ['%'],
           ("  Grade       : ").data ++ pyStr grade,
           ("\n── OVERALL FEEDBACK ").data ++ List.replicate 40 '─',
           ("  ").data ++ pyStr ofb,
           ("\n── QUESTION-WISE RESULTS ").data ++ List.replicate 35 '─']
          ++ recs.flatten
          ++ ['\n' :: List.replicate 60 '='] := by
  unfold reportLines at h
  simp only [Bind.bind, Option.bind_eq_some] at h
  obtain ⟨src, hsrc, tqf, htqf, awarded, haw, available, hav, pct, hpct, pctTxt, hfmt,
    grade, hgr, ofb, hofb, resultsJ, hres, h⟩ := h
  split at h
  · next l =>
    simp only [Option.some_bind, Option.bind_eq_some, Option.some.injEq] at h
    obtain ⟨recs, hrecs, hL⟩ := h
    exact ⟨src, tqf, awarded, available, pct, pctTxt, grade, ofb, l, recs,
      hsrc, htqf, haw, hav, hpct, hfmt, hgr, hofb, hres, hrecs, hL.symm⟩
  · next => simp at h

/-- Claim C7: whenever `generate_report` succeeds, a grading dict with
`total_marks_awarded = 20` and `total_marks_available = 50` yields the
summary line `"  Total Marks : 20 / 50"`, and for every grading dict the
percentage line carries exactly one digit after the decimal point. -/
theorem c7_report_summary (e s g : Json) (L : List (List Char))
    (h : reportLines e s g = some L) :
    ((jGetD g (("total_marks_awarded").data) (.num (("0").data))
        = some (.num (("20").data)) →
      jGetD g (("total_marks_available").data) (.num (("0").data))
        = some (.num (("50").data)) →
      ("  Total Marks : 20 / 50").data ∈ L) ∧
     ∃ pre d, d.isDigit = true ∧
       ((("  Percentage  : ").data) ++ (pre ++ '.' :: d :: ['%'])) ∈ L) := by
  obtain ⟨src, tqf, awarded, available, pct, pctTxt, grade, ofb, results, recs,
    hsrc, htqf, haw, hav, hpct, hfmt, hgr, hofb, hres, hrecs, hL⟩ :=
    reportLines_decomposed e s g L h
  constructor
  · intro h20 h50
    rw [haw] at h20
    rw [hav] at h50
    obtain rfl : awarded = .num (("20").data) := by injection h20
    obtain rfl : available = .num (("50").data) := by injection h50
    rw [hL]
    rw [show ("  Total Marks : 20 / 50").data
        = ("  Total Marks : ").data ++ pyStr (.num (("20").data)) ++ (" / ").data
          ++ pyStr (.num (("50").data)) from rfl]
    simp
  · obtain ⟨pre, d, hshape, hd⟩ := format1f_shape pct pctTxt hfmt
    refine ⟨pre, d, hd, ?_⟩
    rw [hL]
    rw [show ((("  Percentage  : ").data) ++ (pre ++ '.' :: d :: ['%']))
        = ("  Percentage  : ").data ++ (pre ++ '.' :: d :: []) ++ ['%'] from by simp]
    rw [← hshape]
    simp

/-- Witness for C7 on a grading dict scoring 20 of 50 at 40 percent. -/
theorem c7_report_summary_witness :
    ∃ L, reportLines (Json.obj []) Json.null
        (Json.obj [((("total_marks_awarded").data), .num (("20").data)),
                   ((("total_marks_available").data), .num (("50").data)),
                   ((("percentage").data), .num (("40.0").data))]) = some L ∧
      ("  Total Marks : 20 / 50").data ∈ L ∧
      ∃ pre d, d.isDigit = true ∧
        ((("  Percentage  : ").data) ++ (pre ++ '.' :: d :: ['%'])) ∈ L := by
  have h := c7_report_summary (Json.obj []) Json.null
    (Json.obj [((("total_marks_awarded").data), .num (("20").data)),
               ((("total_marks_available").data), .num (("50").data)),
               ((("percentage").data), .num (("40.0").data))]) _ rfl
  exact ⟨_, rfl, h.1 rfl rfl, h.2⟩

theorem recLines_decomposed (r : Json) (L : List (List Char))
    (h : recLines r = some L) :
    ∃ icv ma st qn mav sa ca fb,
      jGetD r (("is_correct").data) Json.null = some icv ∧
      jGetD r (("marks_awarded").data) (.num (("0").data)) = some ma ∧
      statusGlyph icv ma = some st ∧
      jIndex r (("question_number").data) = some qn ∧
      jGetD r (("marks_available").data) (.num (("0").data)) = some mav ∧
      jGetD r (("student_answer").data) (.str []) = some sa ∧
      jGetD r (("correct_answer").data) (.str []) = some ca ∧
      jGetD r (("feedback").data) (.str []) = some fb ∧
      L = [("\n  Q").data ++ pyStr qn ++ (" [").data ++ st ++ ("] ").data
             ++ pyStr ma ++ ('/' :: pyStr mav) ++ (" marks").data,
           ("  Student : ").data ++ (pyStr sa).take 100,
           ("  Correct : ").data ++ (pyStr ca).take 100,
           ("  Feedback: ").data ++ pyStr fb] := by
  unfold recLines at h
  simp only [Bind.bind, Option.bind_eq_some, Option.some.injEq] at h
  obtain ⟨icv, hicv, ma, hma, st, hst, qn, hqn, mav, hmav, sa, hsa, ca, hca, fb, hfb, hL⟩ := h
  exact ⟨icv, ma, st, qn, mav, sa, ca, fb, hicv, hma, hst, hqn, hmav, hsa, hca, hfb, hL.symm⟩

/-- Counterexample to claim C8 as stated: the glyph is driven by the
`is_correct` flag, not by comparing marks.  A record with full credit
(`marks_awarded = marks_available = 2`) but `is_correct = false` renders the
partial-credit glyph, and a record with zero credit but `is_correct = true`
renders the full-credit glyph. -/
theorem c8_counterexample :
    recLines (.obj [((("question_number").data), .str (("1").data)),
        ((("is_correct").data), .bool false),
        ((("marks_awarded").data), .num (("2").data)),
        ((("marks_available").data), .num (("2").data))])
      = some [("\n  Q1 [~] 2/2 marks").data, ("  Student : ").data,
              ("  Correct : ").data, ("  Feedback: ").data] ∧
    recLines (.obj [((("question_number").data), .str (("1").data)),
        ((("is_correct").data), .bool true),
        ((("marks_awarded").data), .num (("0").data)),
        ((("marks_available").data), .num (("2").data))])
      = some [("\n  Q1 [✓] 0/2 marks").data, ("  Student : ").data,
              ("  Correct : ").data, ("  Feedback: ").data] ∧
    ("~").data ≠ ("✓").data ∧ ("✓").data ≠ ("✗").data :=
  ⟨rfl, rfl, by decide, by decide⟩

/-- Claim C8 amended: the correctness glyph of a rendered result entry is
`✓` exactly when the entry's `is_correct` value is truthy; otherwise it is
`~` when `marks_awarded` compares greater than zero and `✗` when it does
not. -/
theorem c8_glyph_from_is_correct (r : Json) (L : List (List Char))
    (h : recLines r = some L) :
    ∃ icv ma qn mav,
      jGetD r (("is_correct").data) Json.null = some icv ∧
      jGetD r (("marks_awarded").data) (.num (("0").data)) = some ma ∧
      jIndex r (("question_number").data) = some qn ∧
      jGetD r (("marks_available").data) (.num (("0").data)) = some mav ∧
      ((pyTruthy icv = true ∧
        L.head? = some (("\n  Q").data ++ pyStr qn ++ (" [").data ++ ("✓").data
          ++ ("] ").data ++ pyStr ma ++ ('/' :: pyStr mav) ++ (" marks").data)) ∨
       (pyTruthy icv = false ∧ ∃ b, pyGtZero ma = some b ∧
        L.head? = some (("\n  Q").data ++ pyStr qn ++ (" [").data
          ++ (if b then ("~").data else ("✗").data)
          ++ ("] ").data ++ pyStr ma ++ ('/' :: pyStr mav) ++ (" marks").data))) := by
  obtain ⟨icv, ma, st, qn, mav, sa, ca, fb, hicv, hma, hst, hqn, hmav, hsa, hca, hfb, hL⟩ :=
    recLines_decomposed r L h
  refine ⟨icv, ma, qn, mav, hicv, hma, hqn, hmav, ?_⟩
  unfold statusGlyph at hst
  by_cases htr : pyTruthy icv
  · rw [if_pos htr] at hst
    obtain rfl : ("✓").data = st := by injection hst
    exact Or.inl ⟨htr, by rw [hL]; rfl⟩
  · rw [if_neg htr] at hst
    rw [Option.map_eq_some'] at hst
    obtain ⟨b, hb, hstb⟩ := hst
    refine Or.inr ⟨by simpa using htr, b, hb, ?_⟩
    rw [hL, ← hstb]
    rfl

/-- Witness for the amended C8 at a minimal record (a missing `is_correct`
defaults to `None`, which is falsy; missing marks default to `0`). -/
theorem c8_glyph_from_is_correct_witness :
    ∃ icv ma qn mav,
      jGetD (Json.obj [((("question_number").data), .str (("1").data))])
          (("is_correct").data) Json.null = some icv ∧
      jGetD (Json.obj [((("question_number").data), .str (("1").data))])
          (("marks_awarded").data) (.num (("0").data)) = some ma ∧
      jIndex (Json.obj [((("question_number").data), .str (("1").data))])
          (("question_number").data) = some qn ∧
      jGetD (Json.obj [((("question_number").data), .str (("1").data))])
          (("marks_available").data) (.num (("0").data)) = some mav ∧
      ((pyTruthy icv = true ∧
        List.head? [("\n  Q1 [✗] 0/0 marks").data, ("  Student : ").data,
           ("  Correct : ").data, ("  Feedback: ").data]
          = some (("\n  Q").data ++ pyStr qn ++ (" [").data ++ ("✓").data
            ++ ("] ").data ++ pyStr ma ++ ('/' :: pyStr mav) ++ (" marks").data)) ∨
       (pyTruthy icv = false ∧ ∃ b, pyGtZero ma = some b ∧
        List.head? [("\n  Q1 [✗] 0/0 marks").data, ("  Student : ").data,
           ("  Correct : ").data, ("  Feedback: ").data]
          = some (("\n  Q").data ++ pyStr qn ++ (" [").data
            ++ (if b then ("~").data else ("✗").data)
            ++ ("] ").data ++ pyStr ma ++ ('/' :: pyStr mav) ++ (" marks").data))) :=
  c8_glyph_from_is_correct (Json.obj [((("question_number").data), .str (("1").data))])
    [("\n  Q1 [✗] 0/0 marks").data, ("  Student : ").data,
     ("  Correct : ").data, ("  Feedback: ").data] rfl

/-- Claim C10: each rendered result entry shows at most the first 100
characters of the stringified student and correct answers (a prefix of
length at most 100), while the feedback line carries the feedback text in
full. -/
theorem c10_answer_truncation (r : Json) (L : List (List Char))
    (h : recLines r = some L) :
    ∃ l1 sa ca fb,
      jGetD r (("student_answer").data) (.str []) = some sa ∧
      jGetD r (("correct_answer").data) (.str []) = some ca ∧
      jGetD r (("feedback").data) (.str []) = some fb ∧
      L = [l1,
           ("  Student : ").data ++ (pyStr sa).take 100,
           ("  Correct : ").data ++ (pyStr ca).take 100,
           ("  Feedback: ").data ++ pyStr fb] ∧
      ((pyStr sa).take 100).length ≤ 100 ∧ ((pyStr sa).take 100) <+: pyStr sa ∧
      ((pyStr ca).take 100).length ≤ 100 ∧ ((pyStr ca).take 100) <+: pyStr ca := by
  obtain ⟨icv, ma, st, qn, mav, sa, ca, fb, hicv, hma, hst, hqn, hmav, hsa, hca, hfb, hL⟩ :=
    recLines_decomposed r L h
  exact ⟨_, sa, ca, fb, hsa, hca, hfb, hL, List.length_take_le _ _,
    List.take_prefix _ _, List.length_take_le _ _, List.take_prefix _ _⟩

/-- Witness for C10 on a record whose student answer has 120 characters. -/
theorem c10_answer_truncation_witness :
    ∃ l1 sa ca fb,
      jGetD (Json.obj [((("question_number").data), .str (("1").data)),
          ((("student_answer").data), .str (List.replicate 120 'a'))])
        (("student_answer").data) (.str []) = some sa ∧
      jGetD (Json.obj [((("question_number").data), .str (("1").data)),
          ((("student_answer").data), .str (List.replicate 120 'a'))])
        (("correct_answer").data) (.str []) = some ca ∧
      jGetD (Json.obj [((("question_number").data), .str (("1").data)),
          ((("student_answer").data), .str (List.replicate 120 'a'))])
        (("feedback").data) (.str []) = some fb ∧
      [("\n  Q1 [✗] 0/0 marks").data,
       ("  Student : ").data ++ List.replicate 100 'a',
       ("  Correct : ").data, ("  Feedback: ").data]
        = [l1,
           ("  Student : ").data ++ (pyStr sa).take 100,
           ("  Correct : ").data ++ (pyStr ca).take 100,
           ("  Feedback: ").data ++ pyStr fb] ∧
      ((pyStr sa).take 100).length ≤ 100 ∧ ((pyStr sa).take 100) <+: pyStr sa ∧
      ((pyStr ca).take 100).length ≤ 100 ∧ ((pyStr ca).take 100) <+: pyStr ca := by
  have h := c10_answer_truncation (Json.obj [((("question_number").data), .str (("1").data)),
      ((("student_answer").data), .str (List.replicate 120 'a'))])
    [("\n  Q1 [✗] 0/0 marks").data,
     ("  Student : ").data ++ (List.replicate 120 'a').take 100,
     ("  Correct : ").data, ("  Feedback: ").data] rfl
  have hrepl : (List.replicate 120 'a').take 100 = List.replicate 100 'a' := by decide
  rw [hrepl] at h
  exact h

theorem countOccur_renderPages (j : Nat) : ∀ (ts : List (List Char)) (s : Nat),
    (∀ t ∈ ts, countOccur (pageMarker j) t = 0) →
    countOccur (pageMarker j) (renderPages ts s)
      = if s ≤ j ∧ j < s + ts.length then 1 else 0 := by
  intro ts
  induction ts with
  | nil =>
    intro s _
    rw [if_neg (by simp only [List.length_nil]; omega)]
    rfl
  | cons t rest ih =>
    intro s hclean
    have hp := pageMarker_ne_nil j
    have hch := pageMarker_no_newline j
    have hshape : renderPages (t :: rest) s
        = pageMarker s ++ '\n' :: (t ++ '\n' :: ([] ++ '\n' :: renderPages rest (s + 1))) := by
      simp [renderPages]
    rw [hshape]
    rw [countOccur_append_cons hp hch]
    rw [countOccur_append_cons hp hch]
    rw [countOccur_append_cons hp hch]
    rw [countOccur_marker_marker j s]
    rw [hclean t (List.mem_cons_self t rest)]
    rw [ih (s + 1) (fun u hu => hclean u (List.mem_cons_of_mem t hu))]
    show (if j = s then 1 else 0) + (0 + (0 + _)) = _
    by_cases h1 : j = s
    · rw [if_pos h1, if_neg (by omega), if_pos (by simp; omega)]
    · rw [if_neg h1]
      by_cases h2 : s + 1 ≤ j ∧ j < s + 1 + rest.length
      · rw [if_pos h2, if_pos (by simp; omega)]
      · rw [if_neg h2, if_neg (by simp; omega)]

theorem renderPages_append : ∀ (xs ys : List (List Char)) (s : Nat),
    renderPages (xs ++ ys) s = renderPages xs s ++ renderPages ys (s + xs.length) := by
  intro xs
  induction xs with
  | nil => intro ys s; simp [renderPages]
  | cons x xs' ih =>
    intro ys s
    show pageMarker s ++ '\n' :: ((x ++ '\n' :: '\n' :: renderPages (xs' ++ ys) (s + 1))) = _
    rw [ih ys (s + 1)]
    have : s + 1 + xs'.length = s + (xs'.length + 1) := by omega
    rw [this]
    simp [renderPages, List.append_assoc]

theorem renderPages_eq_flatten : ∀ (ts : List (List Char)) (s : Nat),
    renderPages ts s = (((List.range ts.length).zip ts).map
      (fun p => pageMarker (s + p.1) ++ '\n' :: (p.2 ++ '\n' :: '\n' :: []))).flatten := by
  intro ts
  induction ts with
  | nil => intro s; rfl
  | cons t rest ih =>
    intro s
    rw [List.length_cons, List.range_succ_eq_map, List.zip_cons_cons, List.map_cons,
      List.flatten_cons]
    rw [List.zip_map_left, List.map_map]
    show pageMarker s ++ '\n' :: (t ++ '\n' :: '\n' :: renderPages rest (s + 1)) = _
    rw [ih (s + 1)]
    have hfun : ((fun p => pageMarker (s + p.1) ++ '\n' :: (p.2 ++ '\n' :: '\n' :: []))
          ∘ Prod.map Nat.succ id)
        = (fun p => pageMarker (s + 1 + p.1) ++ '\n' :: (p.2 ++ '\n' :: '\n' :: [])) := by
      funext p
      have : s + Nat.succ p.1 = s + 1 + p.1 := by omega
      simp [Function.comp, Prod.map, this]
    rw [hfun]
    simp [pageMarker, List.append_assoc]


/-- Counterexample to the "exactly N markers" part of claim C5: when a page
text itself contains its page marker, the output contains the marker twice,
not once. -/
theorem c5_counterexample :
    countOccur (pageMarker 1) (extract_text_from_pdf [pageMarker 1]) = 2 ∧
    countOccur (pageMarker 1) (extract_text_from_pdf [pageMarker 1]) ≠ 1 := by
  refine ⟨by decide, ?_⟩
  intro h
  rw [show countOccur (pageMarker 1) (extract_text_from_pdf [pageMarker 1]) = 2
    from by decide] at h
  simp at h

/-- Claim C5 amended: the Extractor's output is exactly the in-order
concatenation of `"--- Page (i+1) ---\n" + t_i + "\n\n"` over the pages;
and when no page text contains an occurrence of a page marker, the output
contains the marker `"--- Page k ---"` exactly once for each `1 ≤ k ≤ N`
(and never for any other `k`), each marker preceded by exactly the rendering
of the earlier pages, which holds every earlier marker exactly once. -/
theorem c5_page_markers :
    (∀ ts : List (List Char), extract_text_from_pdf ts
        = (((List.range ts.length).zip ts).map
            (fun p => pageMarker (p.1 + 1) ++ '\n' :: (p.2 ++ '\n' :: '\n' :: []))).flatten) ∧
    (∀ (ts : List (List Char)) (j : Nat),
      (∀ t ∈ ts, countOccur (pageMarker j) t = 0) →
      countOccur (pageMarker j) (extract_text_from_pdf ts)
        = if 1 ≤ j ∧ j ≤ ts.length then 1 else 0) ∧
    (∀ (ts : List (List Char)) (k : Nat), 1 ≤ k → k ≤ ts.length →
      (∀ t ∈ ts, ∀ j, countOccur (pageMarker j) t = 0) →
      ∃ a b, extract_text_from_pdf ts = a ++ pageMarker k ++ b ∧
        countOccur (pageMarker k) a = 0 ∧
        ∀ j, 1 ≤ j → j < k → countOccur (pageMarker j) a = 1) := by
  refine ⟨?_, ?_, ?_⟩
  · intro ts
    rw [extract_text_from_pdf, renderPages_eq_flatten ts 1]
    have hfun : (fun (p : Nat × List Char) =>
          pageMarker (1 + p.1) ++ '\n' :: (p.2 ++ '\n' :: '\n' :: []))
        = (fun p => pageMarker (p.1 + 1) ++ '\n' :: (p.2 ++ '\n' :: '\n' :: [])) := by
      funext p
      rw [Nat.add_comm]
    rw [hfun]
  · intro ts j hclean
    rw [extract_text_from_pdf, countOccur_renderPages j ts 1 hclean]
    by_cases h : 1 ≤ j ∧ j ≤ ts.length
    · rw [if_pos (by omega), if_pos h]
    · rw [if_neg (by omega), if_neg h]
  · intro ts k hk1 hkN hclean
    have hsplit : ts = ts.take (k - 1) ++ ts.drop (k - 1) := (List.take_append_drop _ _).symm
    have hlt : k - 1 < ts.length := by omega
    have hdrop : ts.drop (k - 1) = ts[k - 1] :: ts.drop k := by
      have hk : k - 1 + 1 = k := by omega
      rw [List.drop_eq_getElem_cons hlt, hk]
    refine ⟨renderPages (ts.take (k - 1)) 1,
      '\n' :: (ts[k - 1] ++ '\n' :: '\n' :: renderPages (ts.drop k) (k + 1)), ?_, ?_, ?_⟩
    · conv_lhs => rw [extract_text_from_pdf, hsplit]
      rw [renderPages_append]
      have hlen : (ts.take (k - 1)).length = k - 1 := by
        rw [List.length_take]
        omega
      rw [hlen, hdrop]
      rw [show 1 + (k - 1) = k from by omega]
      show _ ++ (pageMarker k ++ '\n' :: (ts[k - 1] ++ '\n' :: '\n' :: renderPages (ts.drop k) (k + 1))) = _
      rw [List.append_assoc]
    · rw [countOccur_renderPages k (ts.take (k - 1)) 1
        (fun t ht => hclean t (List.mem_of_mem_take ht) k)]
      rw [if_neg (by rw [List.length_take]; omega)]
    · intro j hj1 hjk
      rw [countOccur_renderPages j (ts.take (k - 1)) 1
        (fun t ht => hclean t (List.mem_of_mem_take ht) j)]
      rw [if_pos (by rw [List.length_take]; omega)]

/-- Witness for the amended C5 on a one-page document with empty OCR text. -/
theorem c5_page_markers_witness :
    countOccur (pageMarker 1) (extract_text_from_pdf [([] : List Char)]) = 1 ∧
    ∃ a b, extract_text_from_pdf [([] : List Char)] = a ++ pageMarker 1 ++ b ∧
      countOccur (pageMarker 1) a = 0 := by
  have hclean : ∀ t ∈ [([] : List Char)], ∀ j, countOccur (pageMarker j) t = 0 := by
    intro t ht j
    rw [List.mem_singleton.mp ht]
    rfl
  have h2 := c5_page_markers.2.1 [[]] 1 (fun t ht => hclean t ht 1)
  have h3 := c5_page_markers.2.2 [[]] 1 le_rfl (by simp) hclean
  refine ⟨?_, ?_⟩
  · rw [h2]
    simp
  · obtain ⟨a, b, hab, ha0, _⟩ := h3
    exact ⟨a, b, hab, ha0⟩

/-- Claim C6: when `solutions.txt` is absent (and the remaining pipeline
steps themselves succeed), `run_pipeline` completes: it prints the console
warning, substitutes the empty solution set (zero entries, zero total
marks) into the final output, and still writes both `final_output.json` and
`grading_report.txt`. -/
theorem c6_missing_solutions (env : Env)
    (hmiss : env.fileExists (("solutions.txt").data) = false)
    (hclient : get_client env = some ())
    (ehtr : Json × List (List Char × FileData))
    (hhtr : extract_handwritten_text env = some ehtr)
    (g : Json)
    (hg : grade_answers env ehtr.1 emptySolutions
        (if env.fileExists (("question.txt").data) = true
         then env.fileContent (("question.txt").data) else []) = some g)
    (rpt : List Char)
    (hrpt : generate_report ehtr.1 emptySolutions g = some rpt) :
    ∃ res, run_pipeline env = some res ∧
      missingSolutionsWarning ∈ res.prints ∧
      jIndex res.finalOutput (("solutions").data) = some emptySolutions ∧
      jGetD emptySolutions (("solutions").data) Json.null = some (.arr []) ∧
      jGetD emptySolutions (("total_marks").data) Json.null = some (.num (("0").data)) ∧
      (∃ fd, ((("final_output.json").data), fd) ∈ res.files) ∧
      (∃ fd, ((("grading_report.txt").data), fd) ∈ res.files) := by
  unfold run_pipeline
  simp only [hclient, hhtr, hmiss, Bind.bind, Option.some_bind, Bool.false_eq_true, if_false,
    Option.map_some']
  simp only [hg, Option.some_bind, hrpt]
  refine ⟨_, rfl, ?_, ?_, rfl, rfl, ?_, ?_⟩
  · simp [missingSolutionsWarning]
  · rfl
  · exact ⟨_, List.mem_append_right _ (List.mem_cons_self _ _)⟩
  · exact ⟨_, List.mem_append_right _ (List.mem_cons_of_mem _ (List.mem_cons_self _ _))⟩

/-- Witness for C6: a concrete environment without `solutions.txt` in which
the whole pipeline run evaluates. -/
theorem c6_missing_solutions_witness :
    ∃ res, run_pipeline witnessEnv = some res ∧
      missingSolutionsWarning ∈ res.prints ∧
      jIndex res.finalOutput (("solutions").data) = some emptySolutions ∧
      jGetD emptySolutions (("solutions").data) Json.null = some (.arr []) ∧
      jGetD emptySolutions (("total_marks").data) Json.null = some (.num (("0").data)) ∧
      (∃ fd, ((("final_output.json").data), fd) ∈ res.files) ∧
      (∃ fd, ((("grading_report.txt").data), fd) ∈ res.files) :=
  c6_missing_solutions witnessEnv rfl rfl _ rfl _ rfl _ rfl
